import Mathlib

/-!
Shallow embedding of the VSM-Data-Anal analysis core
(`src/vsm_gui/analysis/metrics.py` and `src/vsm_gui/analysis/paramag.py`)
over exact rationals, together with theorems settling the frozen claims
about the natural-language specification.

Conventions of the embedding:
* A raw table cell is `Option ℚ`: `none` stands for a missing / non-numeric
  entry (a float NaN after `pd.to_numeric(errors="coerce")`); numeric values
  are rationals (float arithmetic is modelled exactly over `ℚ`).
* NumPy least-squares fits (`np.polyfit` deg 1 / `np.linalg.lstsq` on
  `[x, 1]`) are modelled by the closed-form normal-equation solution,
  defined (`some`) exactly when the design matrix has full rank
  (`n·Σx² − (Σx)² ≠ 0`).  Rank-deficient fits, where NumPy's behaviour is a
  RankWarning / an implementation-defined minimum-norm solution, are
  modelled as the exceptional path (`none`); the theorems below only use
  full-rank instances.
* A float NaN produced as a *result* (e.g. the R² of `fit_ms_linear` when
  SS_tot = 0) is modelled as `none` in an `Option ℚ`.
* Python exceptions are modelled with `Except String`, the error string
  being the exception message.
-/

namespace VSM

/-- A raw table cell: `some q` for a numeric value, `none` for a missing or
non-numeric entry. -/
abbrev Cell := Option ℚ

/-- `metrics._prepare_series`: coerce a column to numeric and drop the
missing entries, preserving the order of the survivors
(`pd.to_numeric(series, errors="coerce").dropna()`).  Each column is cleaned
independently of the other. -/
def prepare_series (col : List Cell) : List ℚ :=
  col.filterMap id

/-- `paramag.autodetect_windows` lines 78–81: the *pairwise* cleaning
`df[[x, y]].apply(to_numeric).replace(inf, nan).dropna()` — a row is dropped
from both columns when either entry is missing. -/
def dropna_pair (rows : List (Cell × Cell)) : List (ℚ × ℚ) :=
  rows.filterMap (fun r =>
    match r.1, r.2 with
    | some a, some b => some (a, b)
    | _, _ => none)

/-- Sum of a list of rationals. -/
def sumQ (l : List ℚ) : ℚ := l.sum

/-- `np.mean` (0 on the empty list, where NumPy yields NaN; the embedding
only uses it on nonempty lists). -/
def meanQ (l : List ℚ) : ℚ := sumQ l / l.length

/-- Population variance (`np.std(·)²`, `ddof = 0`). -/
def varQ (l : List ℚ) : ℚ :=
  sumQ (l.map (fun a => (a - meanQ l) ^ 2)) / l.length

/-- Ordinary least-squares line fit of `y` against `x`
(`np.polyfit(x, y, 1)` / `np.linalg.lstsq` on the design matrix `[x, 1]`):
`some (slope, intercept)` when the normal equations are nonsingular. -/
def fitLine (x y : List ℚ) : Option (ℚ × ℚ) :=
  let n : ℚ := x.length
  let sx := sumQ x
  let sy := sumQ y
  let sxx := sumQ (x.map (fun a => a * a))
  let sxy := sumQ ((x.zip y).map (fun p => p.1 * p.2))
  let d := n * sxx - sx * sx
  if d = 0 then none
  else
    let slope := (n * sxy - sx * sy) / d
    some (slope, (sy - slope * sx) / n)

/-- Residual sum of squares of the line `slope·x + intercept` on `(x, y)`. -/
def ssRes (x y : List ℚ) (slope intercept : ℚ) : ℚ :=
  sumQ ((x.zip y).map (fun p => (p.2 - (slope * p.1 + intercept)) ^ 2))

/-- Total sum of squares `Σ (y − ȳ)²`. -/
def ssTot (y : List ℚ) : ℚ :=
  sumQ (y.map (fun v => (v - meanQ y) ^ 2))

/-- The R² used throughout `paramag.py` (lines 136, 199, 274, 317, 355):
`1 − SS_res/SS_tot if ss_tot != 0 else 0.0`. -/
def r2_or_zero (x y : List ℚ) (slope intercept : ℚ) : ℚ :=
  if ssTot y = 0 then 0 else 1 - ssRes x y slope intercept / ssTot y

/-- The R² of `metrics.fit_ms_linear` (line 113):
`1 − SS_res/SS_tot if ss_tot > 0 else float("nan")`; the NaN is `none`. -/
def r2_or_nan (x y : List ℚ) (slope intercept : ℚ) : Option ℚ :=
  if ssTot y > 0 then some (1 - ssRes x y slope intercept / ssTot y) else none

/-- Minimum of a list (`np.min`); 0 on the empty list. -/
def listMin (l : List ℚ) : ℚ := l.foldl min (l.headD 0)

/-- Maximum of a list (`np.max`); 0 on the empty list. -/
def listMax (l : List ℚ) : ℚ := l.foldl max (l.headD 0)

/-- `np.nanmax(np.abs(h))`: maximum absolute value of a list. -/
def maxAbs (l : List ℚ) : ℚ := (l.map (fun a => |a|)).foldl max 0

/-- Python's `min(l, key=abs)` on a nonempty list: the *first* element of
smallest absolute value (0 on the empty list, never used there). -/
def minByAbs (l : List ℚ) : ℚ :=
  match l with
  | [] => 0
  | a :: as => as.foldl (fun b c => if |c| < |b| then c else b) a

/-- Python's `max(l, key=abs)` on a nonempty list: the *first* element of
largest absolute value (0 on the empty list, never used there). -/
def maxByAbs (l : List ℚ) : ℚ :=
  match l with
  | [] => 0
  | a :: as => as.foldl (fun b c => if |c| > |b| then c else b) a

/-- `np.sign` restricted to rationals. -/
def signQ (q : ℚ) : ℚ := if 0 < q then 1 else if q < 0 then -1 else 0

/-- Truncation toward zero, Python's `int(q)` on a float. -/
def intTrunc (q : ℚ) : ℤ := if 0 ≤ q then ⌊q⌋ else -⌊-q⌋

/-- `np.quantile(a, q)` with the default linear interpolation: with `s` the
ascending sort of `a` and `pos = q·(n−1)`, the value
`s[⌊pos⌋] + (pos − ⌊pos⌋)·(s[⌊pos⌋+1] − s[⌊pos⌋])`. -/
def quantileQ (a : List ℚ) (q : ℚ) : ℚ :=
  let s := a.insertionSort (· ≤ ·)
  let n := s.length
  if n = 0 then 0
  else
    let pos : ℚ := q * ((n : ℚ) - 1)
    let f : ℕ := (⌊pos⌋).toNat
    let lo := s.getD f 0
    let hi := s.getD (min (f + 1) (n - 1)) 0
    lo + (pos - (f : ℚ)) * (hi - lo)

/-- `paramag.apply_subtraction`: build the corrected column
`M_corr = M − χ·H` next to the originals.  Each output row is
`(H, M, M_corr)`. -/
def apply_subtraction (rows : List (ℚ × ℚ)) (chi : ℚ) : List (ℚ × ℚ × ℚ) :=
  rows.map (fun r => (r.1, r.2, r.2 - chi * r.1))

/-- `np.argmin(np.abs(h))`: first index attaining the minimal `|H|`
(the "sample nearest H = 0" of the spec's subtraction property). -/
def nearestZeroIdx (l : List ℚ) : ℕ :=
  (l.enum.foldl (fun best p => if |p.2| < |best.2| then p else best)
    (0, l.headD 0)).1

/-! ### `metrics.coercivity` -/

/-- Detail record returned by `coercivity` (the Python dict: the window and
the optionally present `Hc_pos` / `Hc_neg` entries). -/
structure CoercDetail where
  window : ℚ × ℚ
  hcPos : Option ℚ
  hcNeg : Option ℚ
deriving DecidableEq, Repr

/-- `coercivity` lines 133–138: the search window — explicit, or by default
±2 % of the maximum `|H|`. -/
def coerc_window (h : List ℚ) (hwin : Option (ℚ × ℚ)) : ℚ × ℚ :=
  match hwin with
  | none => ((-(1 : ℚ)/50) * maxAbs h, ((1 : ℚ)/50) * maxAbs h)
  | some p => p

/-- The rows whose field lies inside the window (`mask = (h >= hmin) & (h <= hmax)`
applied to the aligned pair of columns). -/
def coerc_pairs (h m : List ℚ) (win : ℚ × ℚ) : List (ℚ × ℚ) :=
  (h.zip m).filter (fun r => win.1 ≤ r.1 ∧ r.1 ≤ win.2)

/-- `coercivity._find_zeros`: walk adjacent samples *in data order*; at each
sign change of `M` linearly interpolate the crossing
`Hz = H1 + (H2−H1)·(−M1)/(M2−M1)`; return the crossings with `Hz ≥ 0` and
the crossings with `Hz ≤ 0` (a crossing at exactly 0 lands in both). -/
def find_zeros : List ℚ → List ℚ → List ℚ × List ℚ
  | h1 :: h2 :: hs, m1 :: m2 :: ms =>
    let rest := find_zeros (h2 :: hs) (m2 :: ms)
    if signQ m1 ≠ signQ m2 then
      let hz := h1 + (h2 - h1) * (-m1) / (m2 - m1)
      ((if 0 ≤ hz then [hz] else []) ++ rest.1,
       (if hz ≤ 0 then [hz] else []) ++ rest.2)
    else rest
  | _, _ => ([], [])

/-- The pair `(pos, neg)` of crossing lists actually used by `coercivity`:
the crossings found inside the window — unless the window was explicit and
one side is empty, in which case the search is re-run over the whole data
(lines 157–159). -/
def coerc_searched (h m : List ℚ) (win : ℚ × ℚ) (explicitWin : Bool) :
    List ℚ × List ℚ :=
  let pairs := coerc_pairs h m win
  let pn := find_zeros (pairs.map Prod.fst) (pairs.map Prod.snd)
  if (pn.1 = [] ∨ pn.2 = []) ∧ explicitWin then find_zeros h m else pn

/-- `coercivity` lines 160–174: combine the crossing lists into the reported
`Hc` and detail record.  With both sides present: the positive crossing of
*smallest* `|·|` and the negative crossing of *largest* `|·|`, averaged.
With one side missing: the mean of `|z|` over all crossings found (error if
none). -/
def coerc_combine (win : ℚ × ℚ) (pos neg : List ℚ) :
    Except String (ℚ × CoercDetail) :=
  if pos = [] ∨ neg = [] then
    let zeros := pos ++ neg
    if zeros = [] then .error ("Could not find zero crossings")
    else
      .ok (meanQ (zeros.map (fun z => |z|)), ⟨win, pos.head?, neg.head?⟩)
  else
    let hcPos := minByAbs pos
    let hcNeg := maxByAbs neg
    .ok ((|hcPos| + |hcNeg|) / 2, ⟨win, some hcPos, some hcNeg⟩)

/-- `metrics.coercivity`: clean each column independently, check sizes,
window the data, search for zero crossings and combine them.  The boolean
mask built on `h` can only be applied to `m` when the two cleaned columns
have the same length; the mismatch (a NumPy `IndexError` in the source) is
modelled as an error value. -/
def coercivity (hCol mCol : List Cell) (hwin : Option (ℚ × ℚ)) :
    Except String (ℚ × CoercDetail) :=
  let h := prepare_series hCol
  let m := prepare_series mCol
  if h.length < 2 ∨ m.length < 2 then .error ("Not enough data points")
  else if h.length ≠ m.length then .error ("boolean index mismatch")
  else
    let win := coerc_window h hwin
    let pairs := coerc_pairs h m win
    if pairs.length < 2 then .error ("No data in coercivity window")
    else
      let pn := coerc_searched h m win hwin.isSome
      coerc_combine win pn.1 pn.2

/-! ### `metrics.remanence` -/

/-- Detail record of `remanence`: local slope, point count and the target
field. -/
structure RemDetail where
  slope : ℚ
  n : ℕ
  h0 : ℚ
deriving DecidableEq, Repr

/-- `np.argsort(np.abs(h − h0))` modelled as a stable sort of the index list
by the key `|h_i − h0|` (NumPy's default quicksort leaves ties unspecified;
the theorems below do not depend on tie order). -/
def remanence_order (h : List ℚ) (h0 : ℚ) : List ℕ :=
  (List.range h.length).insertionSort
    (fun i j => |h.getD i 0 - h0| ≤ |h.getD j 0 - h0|)

/-- The `x` values of the `n = min(max(window_pts, 2), len(h))` samples
nearest `h0` (`h[order[:n]]`). -/
def remanence_sel_x (h : List ℚ) (h0 : ℚ) (window_pts : ℕ) : List ℚ :=
  ((remanence_order h h0).take (min (max window_pts 2) h.length)).map
    (fun i => h.getD i 0)

/-- The corresponding `y` values (`m[order[:n]]` — fancy indexing of `m`
with indices into `h`; out of range, an `IndexError` in NumPy reachable
only with misaligned columns, is modelled by the default 0). -/
def remanence_sel_y (h m : List ℚ) (h0 : ℚ) (window_pts : ℕ) : List ℚ :=
  ((remanence_order h h0).take (min (max window_pts 2) h.length)).map
    (fun i => m.getD i 0)

/-- `metrics.remanence`: pick the `window_pts` samples nearest `h0`, fit a
local line through them and report its *intercept* (its value at `H = 0`). -/
def remanence (hCol mCol : List Cell) (h0 : ℚ) (window_pts : ℕ) :
    Except String (ℚ × RemDetail) :=
  let h := prepare_series hCol
  let m := prepare_series mCol
  if h.length < 2 ∨ m.length < 2 then .error ("Not enough data points")
  else if ¬ (listMin h ≤ h0 ∧ h0 ≤ listMax h) then
    .error ("Field does not include interpolation point")
  else
    match fitLine (remanence_sel_x h h0 window_pts)
        (remanence_sel_y h m h0 window_pts) with
    | none => .error ("rank-deficient lstsq")
    | some (slope, intercept) =>
      .ok (intercept, ⟨slope, min (max window_pts 2) h.length, h0⟩)

/-! ### `metrics.saturation_magnetization` and `metrics.fit_ms_linear` -/

/-- The conversion parameters dict (`mass`, `density`, `thickness`, `area`,
each defaulting to 0 via `params.get(·, 0)`). -/
structure SatParams where
  mass : ℚ
  density : ℚ
  thickness : ℚ
  area : ℚ
deriving DecidableEq, Repr

/-- Detail record of `saturation_magnetization`.  `stderrSq` is the square
of the reported standard error (`none` models the float NaN). -/
structure SatDetail where
  chi : ℚ
  stderrSq : Option ℚ
  window : ℚ × ℚ
  unit : String
deriving DecidableEq, Repr

/-- The default high-field selection of `saturation_magnetization`
(lines 38–43): keep the samples with `|H| ≥ quantile(|H|, q)` (default
`q = 0.8`, i.e. the top 20 % by `|H|`, both wings). -/
def satmag_default_keep (h : List ℚ) (q : ℚ) (a : ℚ) : Bool :=
  quantileQ (h.map (fun v => |v|)) q ≤ |a|

/-- The `(x, y)` pairs entering the regression of
`saturation_magnetization`: the aligned rows surviving the window mask. -/
def satmag_points (h m : List ℚ) (window : Option (ℚ × ℚ)) (q : ℚ) :
    List (ℚ × ℚ) :=
  match window with
  | none => (h.zip m).filter (fun r => satmag_default_keep h q r.1)
  | some w => (h.zip m).filter (fun r => decide (w.1 ≤ r.1) && decide (r.1 ≤ w.2))

/-- `metrics.saturation_magnetization`: select a high-field window
(explicit, or by default the top 20 % by `|H|` quantile), fold the negative
wing (`x_fit = |H|`, `y_fit = sign(H)·M`) and fit `y_fit = Ms + χ·x_fit` by
least squares; optionally convert by a volume.  Returns `(Ms, detail)`. -/
def saturation_magnetization (hCol mCol : List Cell)
    (window : Option (ℚ × ℚ)) (convert : Bool) (params : Option SatParams)
    (q : ℚ) : Except String (ℚ × SatDetail) :=
  let h := prepare_series hCol
  let m := prepare_series mCol
  if h.length = 0 ∨ m.length = 0 then .error ("No numeric data")
  else if h.length ≠ m.length then .error ("boolean index mismatch")
  else
    let pts := satmag_points h m window q
    if pts.length < 2 then
      match window with
      | none => .error ("Insufficient points in high-field tails")
      | some _ => .error ("Insufficient points in high-field window")
    else
      let wb : ℚ × ℚ :=
        match window with
        | none => (listMin (pts.map Prod.fst), listMax (pts.map Prod.fst))
        | some w => w
      let xFit := pts.map (fun r => |r.1|)
      let yFit := pts.map (fun r => signQ r.1 * r.2)
      match fitLine xFit yFit with
      | none => .error ("rank-deficient lstsq")
      | some (chi, msv) =>
        let stderrSq : Option ℚ :=
          if 2 < pts.length then
            some (ssRes xFit yFit chi msv / ((pts.length : ℚ) - 2))
          else none
        let volume : Option ℚ :=
          match convert, params with
          | true, some p =>
            if p.mass ≠ 0 ∧ p.density ≠ 0 then some (p.mass / p.density)
            else if p.thickness ≠ 0 ∧ p.area ≠ 0 then
              some (p.thickness * p.area)
            else none
          | _, _ => none
        match volume with
        | some v =>
          if v ≠ 0 ∧ 0 < v then
            .ok (msv / v,
              ⟨chi, stderrSq.map (fun s => s / v ^ 2), wb, "A/m"⟩)
          else .ok (msv, ⟨chi, stderrSq, wb, "raw"⟩)
        | none => .ok (msv, ⟨chi, stderrSq, wb, "raw"⟩)

/-- Detail record of `fit_ms_linear` (`n` and the window). -/
structure MsLinDetail where
  n : ℕ
  window : ℚ × ℚ
deriving DecidableEq, Repr

/-- `metrics.fit_ms_linear`: fit `M = χ·H + Ms` on an explicit window;
returns `(Ms, χ, R², detail)` where the R² is `none` (a float NaN in the
source, line 113) when `SS_tot = 0`. -/
def fit_ms_linear (hCol mCol : List Cell) (hmin hmax : ℚ) :
    Except String (ℚ × ℚ × Option ℚ × MsLinDetail) :=
  let h := prepare_series hCol
  let m := prepare_series mCol
  if h.length ≠ m.length then .error ("boolean index mismatch")
  else
    let pairs := (h.zip m).filter (fun r => hmin ≤ r.1 ∧ r.1 ≤ hmax)
    let x := pairs.map Prod.fst
    let y := pairs.map Prod.snd
    if x.length < 2 then .error ("Insufficient points in fit window")
    else
      match fitLine x y with
      | none => .error ("rank-deficient lstsq")
      | some (chi, msv) =>
        .ok (msv, chi, r2_or_nan x y chi msv, ⟨x.length, (hmin, hmax)⟩)

/-! ### `paramag._select_window` and `paramag.fit_linear_tail` -/

/-- `paramag._select_window`: with both bounds absent, keep the rows with
`|H| ≥ quantile(|H|, 0.8)`; otherwise intersect the given bounds. -/
def select_window (rows : List (ℚ × ℚ)) (hmin hmax : Option ℚ) :
    List (ℚ × ℚ) :=
  match hmin, hmax with
  | none, none =>
    let th := quantileQ (rows.map (fun r => |r.1|)) (4/5)
    rows.filter (fun r => th ≤ |r.1|)
  | _, _ =>
    rows.filter (fun r =>
      (match hmin with | none => true | some lo => decide (lo ≤ r.1)) &&
      (match hmax with | none => true | some hi => decide (r.1 ≤ hi)))

/-- The scalar part of `paramag.FitResult` (the fitted overlay series
`x_fit`/`y_fit` are the window's x values and their predictions and are
omitted from the record; they are determined by `chi`, `b` and the
window). -/
structure TailFit where
  chi : ℚ
  b : ℚ
  r2 : ℚ
  npoints : ℕ
  hmin : ℚ
  hmax : ℚ
deriving DecidableEq, Repr

/-- `paramag.fit_linear_tail`: fit `M = χ·H + b` on the selected window;
R² falls back to 0 when `SS_tot = 0` (line 317). -/
def fit_linear_tail (rows : List (ℚ × ℚ)) (hmin hmax : Option ℚ) :
    Except String TailFit :=
  let w := select_window rows hmin hmax
  let x := w.map Prod.fst
  let y := w.map Prod.snd
  if w.length < 2 then .error ("Not enough points in selected window")
  else
    match fitLine x y with
    | none => .error ("rank-deficient polyfit")
    | some (chi, b) =>
      .ok ⟨chi, b, r2_or_zero x y chi b, w.length, listMin x, listMax x⟩

/-! ### `paramag.autodetect_windows` -/

/-- The keyword parameters of `autodetect_windows`. -/
structure AutoParams where
  core_exclude_frac : ℚ
  slide_frac : ℚ
  r2_min : ℚ
  slope_std_rel_max : ℚ
  q_abs_max : Option ℚ
  max_frac : ℚ
  n_min : ℕ
  dh_min_frac : ℚ
  smooth_window : Option ℕ
deriving DecidableEq, Repr

/-- The default parameter values (`core_exclude_frac=0.2`, `slide_frac=0.08`,
`r2_min=0.995`, `slope_std_rel_max=0.10`, `q_abs_max=None`, `max_frac=0.4`,
`n_min=20`, `dh_min_frac=0.10`, `smooth_window=None`). -/
def defaultAutoParams : AutoParams :=
  ⟨1/5, 2/25, 199/200, 1/10, none, 2/5, 20, 1/10, none⟩

/-- The per-branch result dict.  `idxEnd` is the second component of the
`"idx": (0, end)` diagnostic (the first is the constant 0). -/
structure BranchRec where
  hmin : ℚ
  hmax : ℚ
  idxEnd : ℕ
  chi : ℚ
  b : ℚ
  r2 : ℚ
  n : ℕ
deriving DecidableEq, Repr

/-- 3×3 determinant. -/
def det3 (a b c d e f g h i : ℚ) : ℚ :=
  a * (e * i - f * h) - b * (d * i - f * g) + c * (d * h - e * g)

/-- Leading coefficient of `np.polyfit(x, y, 2)` by Cramer's rule on the
normal equations; `none` when they are singular. -/
def quadCoeff (x y : List ℚ) : Option ℚ :=
  let s0 : ℚ := x.length
  let s1 := sumQ x
  let s2 := sumQ (x.map (fun a => a ^ 2))
  let s3 := sumQ (x.map (fun a => a ^ 3))
  let s4 := sumQ (x.map (fun a => a ^ 4))
  let t0 := sumQ y
  let t1 := sumQ ((x.zip y).map (fun r => r.1 * r.2))
  let t2 := sumQ ((x.zip y).map (fun r => r.1 ^ 2 * r.2))
  let dd := det3 s4 s3 s2 s3 s2 s1 s2 s1 s0
  if dd = 0 then none
  else some (det3 t2 s3 s2 t1 s2 s1 t0 s1 s0 / dd)

/-- `pd.Series(y).rolling(k, center=True, min_periods=1).mean()`: the label
`i` averages the entries with index in `[i − (k−1)/2, i + k/2]` clamped to
the array, always nonempty thanks to `min_periods=1`. -/
def rollingMeanCentered (k : ℕ) (y : List ℚ) : List ℚ :=
  (List.range y.length).map (fun i =>
    let lo := i - (k - 1) / 2
    let hi := min (i + k / 2) (y.length - 1)
    meanQ ((y.drop lo).take (hi + 1 - lo)))

/-- One position of the sliding search (the body of the `try` block,
lines 131–143): fit a line on the window, compute its R² (0 when
`SS_tot = 0`) and, when a curvature bound is configured, the quadratic
coefficient.  `some (slope, accepted)` on success; `none` models the
`np.linalg.LinAlgError` path, which breaks the scan. -/
def slide_eval (p : AutoParams) (xs ys : List ℚ) : Option (ℚ × Bool) :=
  match fitLine xs ys with
  | none => none
  | some (slope, intercept) =>
    let r2 := r2_or_zero xs ys slope intercept
    match p.q_abs_max with
    | none => some (slope, decide (p.r2_min ≤ r2))
    | some qm =>
      match quadCoeff xs ys with
      | none => none
      | some qc => some (slope, decide (p.r2_min ≤ r2) && decide (|qc| ≤ qm))

/-- The sliding `while i <= n - w` loop (lines 127–154), with the loop
counter as structural fuel (`n + 1` suffices).  State: current index,
`start_idx` and the accepted slopes in order of acceptance. -/
def slide_loop (p : AutoParams) (x yd : List ℚ) (n w : ℕ) :
    ℕ → ℕ → Option ℕ → List ℚ → Option ℕ × List ℚ
  | 0, _, start, slopes => (start, slopes)
  | fuel + 1, i, start, slopes =>
    if n < i + w then (start, slopes)
    else
      match slide_eval p ((x.drop i).take w) ((yd.drop i).take w) with
      | none => (start, slopes)
      | some (slope, acc) =>
        if acc then
          slide_loop p x yd n w fuel (i + 1) (some (start.getD i))
            (slopes ++ [slope])
        else
          match start with
          | none => slide_loop p x yd n w fuel (i + 1) none slopes
          | some _ => (start, slopes)

/-- The stability trim (lines 162–169): while more than one slope is
included and the relative standard deviation `std/|mean|` of the included
prefix exceeds `maxRel`, drop one position off the inward end.  Over ℚ the
test `std/|mean| ≤ maxRel` (with the convention `rel = ∞` when `mean = 0`)
is stated equivalently without the square root as
`mean ≠ 0 ∧ 0 ≤ maxRel ∧ var ≤ maxRel²·mean²`. -/
def trim_loop (slopes : List ℚ) (maxRel : ℚ) : ℕ → ℕ
  | 0 => 0
  | c + 1 =>
    if c = 0 then 1
    else
      let s := slopes.take (c + 1)
      let μ := meanQ s
      if μ ≠ 0 ∧ 0 ≤ maxRel ∧ varQ s ≤ maxRel ^ 2 * μ ^ 2 then c + 1
      else trim_loop slopes maxRel c

/-- The branch ordering of `_process_branch` (lines 97–101): sort by
ascending `H` for the "neg" branch, descending for "pos", so that index 0
is the outermost field value.  (Ties, unspecified under pandas' quicksort,
are resolved stably.) -/
def pb_sorted (branch : List (ℚ × ℚ)) (name : String) : List (ℚ × ℚ) :=
  if name = "pos" then branch.insertionSort (fun a b => b.1 ≤ a.1)
  else branch.insertionSort (fun a b => a.1 ≤ b.1)

/-- The diagnostic series `y_diag` (lines 115–123): an optional centred
rolling mean used only to guide the window search. -/
def pb_yd (p : AutoParams) (y : List ℚ) : List ℚ :=
  match p.smooth_window with
  | some k => if 1 < k then rollingMeanCentered k y else y
  | none => y

/-- The final region's last index (lines 175–181): `start + valid + w − 1`
clamped to `n − 1`, then capped so the region holds at most
`int(max_frac · n)` points. -/
def pb_endIdx (p : AutoParams) (n start validCount w : ℕ) : ℤ :=
  let endIdx1 : ℤ := min ((start : ℤ) + validCount + w - 1) ((n : ℤ) - 1)
  let maxLen : ℤ := intTrunc (p.max_frac * n)
  if maxLen < endIdx1 - start + 1 then (start : ℤ) + maxLen - 1 else endIdx1

/-- The tail of `_process_branch` after the stability trim (lines 175–209):
compute the final region from `start_idx`, the trimmed count and the window
width, cap it, check its length and field span, and re-fit a plain line on
the original data.  Rank-deficient final fits (a NumPy `RankWarning` with
implementation-defined output) and the empty-slice `xs[-1]` access (an
`IndexError`, reachable only with `n_min = 0`) are modelled as a record-less
return without a note; the theorems below avoid both corners. -/
def pb_finish (p : AutoParams) (x y : List ℚ) (name : String)
    (start validCount w : ℕ) : Option BranchRec × List String :=
  let endIdx : ℤ := pb_endIdx p x.length start validCount w
  if endIdx - start + 1 < (p.n_min : ℤ) then
    (none, [name ++ " branch: window too short"])
  else
    let xs := (x.drop start).take (endIdx + 1 - start).toNat
    let ys := (y.drop start).take (endIdx + 1 - start).toNat
    if xs = [] then (none, [])
    else
      let dh := |xs.getLast?.getD 0 - xs.headD 0|
      let span := |x.getLast?.getD 0 - x.headD 0|
      if dh < p.dh_min_frac * span then
        (none, [name ++ " branch: span below threshold"])
      else
        match fitLine xs ys with
        | none => (none, [])
        | some (slope, intercept) =>
          (some ⟨listMin xs, listMax xs, endIdx.toNat, slope, intercept,
            r2_or_zero xs ys slope intercept, xs.length⟩, [])

/-- `autodetect_windows._process_branch` (lines 92–209): sort the branch,
run the sliding acceptance scan and then the stability trim, and finish
with the capped, checked final fit.  Returns the optional branch record
together with the diagnostic notes the call appends. -/
def process_branch (p : AutoParams) (branch : List (ℚ × ℚ)) (name : String) :
    Option BranchRec × List String :=
  if branch = [] then (none, [name ++ " branch: no data"])
  else
    let x := (pb_sorted branch name).map Prod.fst
    let y := (pb_sorted branch name).map Prod.snd
    let n := x.length
    if n < p.n_min then (none, [name ++ " branch: insufficient points"])
    else
      let w := max p.n_min (intTrunc (p.slide_frac * n)).toNat
      if n < w then (none, [name ++ " branch: window larger than branch"])
      else
        let scan := slide_loop p x (pb_yd p y) n w (n + 1) 0 none []
        match scan.1 with
        | none => (none, [name ++ " branch: no valid window"])
        | some start =>
          if scan.2 = [] then (none, [name ++ " branch: no valid window"])
          else
            let validCount :=
              trim_loop scan.2 p.slope_std_rel_max scan.2.length
            if validCount = 0 then (none, [name ++ " branch: unstable slope"])
            else pb_finish p x y name start validCount w

/-- `np.median`: sort; middle element for odd length, mean of the two
middle elements for even length. -/
def npMedian (l : List ℚ) : ℚ :=
  let s := l.insertionSort (· ≤ ·)
  let n := s.length
  if n = 0 then 0
  else if n % 2 = 1 then s.getD (n / 2) 0
  else (s.getD (n / 2 - 1) 0 + s.getD (n / 2) 0) / 2

/-- The two branch runs of `autodetect_windows` (lines 211–214): split the
cleaned rows by the sign of `H`, excluding the core
`|H| ≤ core_exclude_frac · max|H|`, and process each branch. -/
def auto_branches (p : AutoParams) (rows : List (Cell × Cell)) :
    (Option BranchRec × List String) × (Option BranchRec × List String) :=
  let dfc := dropna_pair rows
  let core := p.core_exclude_frac * maxAbs (dfc.map Prod.fst)
  let negB := dfc.filter (fun r => r.1 < 0 ∧ core < |r.1|)
  let posB := dfc.filter (fun r => 0 < r.1 ∧ core < |r.1|)
  (process_branch p negB "neg", process_branch p posB "pos")

/-- The diagnostic notes accumulated by a run of `autodetect_windows`
(empty when the cleaned data is empty: the `ValueError` is raised before
any branch runs). -/
def autodetect_notes (p : AutoParams) (rows : List (Cell × Cell)) :
    List String :=
  if dropna_pair rows = [] then []
  else (auto_branches p rows).1.2 ++ (auto_branches p rows).2.2

/-- The result dict of `autodetect_windows`. -/
structure AutoResult where
  neg : Option BranchRec
  pos : Option BranchRec
  chi_combined : ℚ
  notes : List String
deriving DecidableEq, Repr

/-- `paramag.autodetect_windows` (lines 51–227): clean pairwise, process
the two branches, and either combine the successful branch slopes by
`np.median` or fail.  Both failure messages are constants; the accumulated
notes are attached only to the success result. -/
def autodetect_windows (p : AutoParams) (rows : List (Cell × Cell)) :
    Except String AutoResult :=
  if dropna_pair rows = [] then .error ("No valid data")
  else
    let br := auto_branches p rows
    let notes := br.1.2 ++ br.2.2
    match br.1.1, br.2.1 with
    | none, none => .error ("No valid high-field tails detected")
    | some nr, none => .ok ⟨some nr, none, npMedian [nr.chi], notes⟩
    | none, some pr => .ok ⟨none, some pr, npMedian [pr.chi], notes⟩
    | some nr, some pr =>
      .ok ⟨some nr, some pr, npMedian [nr.chi, pr.chi], notes⟩

/-- The ascending key order used by `pb_sorted` is total. -/
instance : IsTotal (ℚ × ℚ) (fun a b => a.1 ≤ b.1) :=
  ⟨fun a b => le_total a.1 b.1⟩

/-- The ascending key order used by `pb_sorted` is transitive. -/
instance : IsTrans (ℚ × ℚ) (fun a b => a.1 ≤ b.1) :=
  ⟨fun _ _ _ h₁ h₂ => le_trans h₁ h₂⟩

/-- The descending key order used by `pb_sorted` is total. -/
instance : IsTotal (ℚ × ℚ) (fun a b => b.1 ≤ a.1) :=
  ⟨fun a b => le_total b.1 a.1⟩

/-- The descending key order used by `pb_sorted` is transitive. -/
instance : IsTrans (ℚ × ℚ) (fun a b => b.1 ≤ a.1) :=
  ⟨fun _ _ _ h₁ h₂ => le_trans h₂ h₁⟩

/-- Decidable equality of exception-carrying results, so that witnesses and
counterexamples can be checked by evaluation. -/
instance {ε α : Type} [DecidableEq ε] [DecidableEq α] :
    DecidableEq (Except ε α) := fun a b =>
  match a, b with
  | .ok x, .ok y =>
    if h : x = y then .isTrue (by rw [h]) else
      .isFalse (by intro hc; exact h (Except.ok.inj hc))
  | .error x, .error y =>
    if h : x = y then .isTrue (by rw [h]) else
      .isFalse (by intro hc; exact h (Except.error.inj hc))
  | .ok _, .error _ => .isFalse (by intro hc; exact Except.noConfusion hc)
  | .error _, .ok _ => .isFalse (by intro hc; exact Except.noConfusion hc)

/-! ## Theorems settling the claims -/

/-- C1, counterexample: for the dataset with the single sample `(H, M) =
(1, 0)` and `χ = 1`, the corrected moment at the sample nearest `H = 0`
(that sample itself) differs from the original moment by `1 > 1e-8`, so the
claim's universally quantified 1e-8 bound at the nearest-to-zero sample is
false as stated. -/
theorem C1_cex :
    ¬ |((apply_subtraction [((1 : ℚ), 0)] 1).getD
          (nearestZeroIdx ([((1 : ℚ), 0)].map Prod.fst)) (0, 0, 0)).2.2 -
        (([((1 : ℚ), 0)] : List (ℚ × ℚ)).getD
          (nearestZeroIdx ([((1 : ℚ), 0)].map Prod.fst)) (0, 0)).2| ≤
      1 / 100000000 := by
  norm_num [apply_subtraction, nearestZeroIdx, List.enum, List.enumFrom,
    List.getD]

/-- C1 (amended): `apply_subtraction` returns a dataset of the same length
whose corrected moment column is exactly `M − χ·H` at every sample; only
the slope term is removed, never an intercept, so at any sample with
`H = 0` the corrected moment equals the original moment exactly (hence the
spec's 1e-8 bound at the sample nearest `H = 0` holds whenever that sample
has `|χ·H| ≤ 1e-8`, e.g. when it sits at `H = 0`, but not for arbitrary
datasets and χ). -/
theorem C1_apply_subtraction (rows : List (ℚ × ℚ)) (chi : ℚ) (i : ℕ)
    (hi : i < rows.length) :
    (apply_subtraction rows chi).length = rows.length ∧
    ((apply_subtraction rows chi).getD i (0, 0, 0)).2.2 =
      (rows.getD i (0, 0)).2 - chi * (rows.getD i (0, 0)).1 ∧
    ((rows.getD i (0, 0)).1 = 0 →
      ((apply_subtraction rows chi).getD i (0, 0, 0)).2.2 =
        (rows.getD i (0, 0)).2) := by
  have hlen : (apply_subtraction rows chi).length = rows.length :=
    List.length_map _ _
  have hkey : ((apply_subtraction rows chi).getD i (0, 0, 0)).2.2 =
      (rows.getD i (0, 0)).2 - chi * (rows.getD i (0, 0)).1 := by
    unfold apply_subtraction
    rw [List.getD_eq_getElem?_getD, List.getElem?_map,
      List.getElem?_eq_getElem hi, List.getD_eq_getElem?_getD,
      List.getElem?_eq_getElem hi]
    rfl
  refine ⟨hlen, hkey, fun h0 => ?_⟩
  rw [hkey, h0, mul_zero, sub_zero]

/-- C1, witness: at the dataset `[(0, 5)]` with `χ = 3` the sample at
`H = 0` keeps its moment. -/
theorem C1_apply_subtraction_w :
    ((apply_subtraction [((0 : ℚ), 5)] 3).getD 0 (0, 0, 0)).2.2 =
      (([((0 : ℚ), 5)] : List (ℚ × ℚ)).getD 0 (0, 0)).2 :=
  (C1_apply_subtraction [((0 : ℚ), 5)] 3 0 (by decide)).2.2 rfl

/-- C3: at the failing input `H = [1, 2, 3]`, `M = [1, <missing>, 3]`, the
per-column cleaning of `metrics._prepare_series` drops the missing value
only from `M`, leaving arrays of lengths 3 and 2 that are not
index-aligned; the windowed `coercivity` call then fails on the mask-length
mismatch (a NumPy `IndexError` in the source) instead of computing.  The
pairwise cleaning of `paramag.autodetect_windows` drops the row from both
columns, which is what the claim (and the spec) describe. -/
theorem C3_misalignment :
    (prepare_series [some (1 : ℚ), some 2, some 3]).length = 3 ∧
    (prepare_series [some (1 : ℚ), none, some 3]).length = 2 ∧
    (prepare_series [some (1 : ℚ), some 2, some 3]).length ≠
      (prepare_series [some (1 : ℚ), none, some 3]).length ∧
    coercivity [some (1 : ℚ), some 2, some 3] [some (1 : ℚ), none, some 3]
      (some (0, 4)) = .error ("boolean index mismatch") ∧
    dropna_pair [(some (1 : ℚ), some (1 : ℚ)), (some 2, none),
      (some 3, some 3)] = [(1, 1), (3, 3)] :=
  ⟨rfl, rfl, by decide, rfl, rfl⟩

/-- C4, counterexample: on `H = M = [0, 1, 2, 3]` with `h0 = 2` (inside the
field span) and the default `n = 4`, the local fit through the four nearest
samples is the line `slope = 1`, `intercept = 0`; `remanence` returns the
intercept 0, whereas the claim's "value of the fitted line evaluated at
`H = h0`" is `1·2 + 0 = 2 ≠ 0`. -/
theorem C4_cex :
    remanence [some (0 : ℚ), some 1, some 2, some 3]
      [some (0 : ℚ), some 1, some 2, some 3] 2 4 = .ok (0, ⟨1, 4, 2⟩) ∧
    (1 : ℚ) * 2 + 0 ≠ 0 := by
  have hp : prepare_series [some (0 : ℚ), some 1, some 2, some 3] =
      [0, 1, 2, 3] := rfl
  have horder : remanence_order [(0 : ℚ), 1, 2, 3] 2 = [2, 1, 3, 0] := by
    norm_num [remanence_order, List.insertionSort, List.orderedInsert,
      List.range, List.range.loop, List.getD]
  have hx : remanence_sel_x [(0 : ℚ), 1, 2, 3] 2 4 = [2, 1, 3, 0] := by
    rw [remanence_sel_x, horder]
    norm_num [List.getD]
  have hy : remanence_sel_y [(0 : ℚ), 1, 2, 3] [(0 : ℚ), 1, 2, 3] 2 4 =
      [2, 1, 3, 0] := by
    rw [remanence_sel_y, horder]
    norm_num [List.getD]
  have hfit : fitLine [(2 : ℚ), 1, 3, 0] [(2 : ℚ), 1, 3, 0] = some (1, 0) := by
    norm_num [fitLine, sumQ]
  refine ⟨?_, by norm_num⟩
  rw [remanence, hp]
  norm_num [hx, hy, hfit, listMin, listMax]

/-- C4 (amended): `remanence` selects the `n = min(max(window_pts, 2), N)`
samples nearest `h0`, fits a local line through them, and returns the value
of that fitted line evaluated at `H = 0` — its intercept — which coincides
with the line's value at `h0` only when `h0 = 0`; and it fails with the
domain-range error whenever `h0` lies outside `[H.min(), H.max()]`. -/
theorem C4_remanence (hCol mCol : List Cell) (h0 : ℚ) (wpts : ℕ)
    (hsz : 2 ≤ (prepare_series hCol).length ∧
      2 ≤ (prepare_series mCol).length) :
    (¬ (listMin (prepare_series hCol) ≤ h0 ∧
        h0 ≤ listMax (prepare_series hCol)) →
      remanence hCol mCol h0 wpts =
        .error ("Field does not include interpolation point")) ∧
    (∀ slope intercept,
      fitLine (remanence_sel_x (prepare_series hCol) h0 wpts)
          (remanence_sel_y (prepare_series hCol) (prepare_series mCol) h0
            wpts) = some (slope, intercept) →
      (listMin (prepare_series hCol) ≤ h0 ∧
        h0 ≤ listMax (prepare_series hCol)) →
      remanence hCol mCol h0 wpts =
        .ok (slope * 0 + intercept,
          ⟨slope, min (max wpts 2) (prepare_series hCol).length, h0⟩)) := by
  have hlen : ¬ ((prepare_series hCol).length < 2 ∨
      (prepare_series mCol).length < 2) := by
    push_neg
    exact hsz
  constructor
  · intro hdom
    unfold remanence
    rw [if_neg hlen, if_pos hdom]
  · intro slope intercept hfit hdom
    unfold remanence
    rw [if_neg hlen, if_neg (not_not.mpr hdom), hfit]
    norm_num

/-- C4, witness: the amended statement evaluated on `H = M = [0, 1, 2, 3]`,
`h0 = 2`. -/
theorem C4_remanence_w :
    remanence [some (0 : ℚ), some 1, some 2, some 3]
      [some (0 : ℚ), some 1, some 2, some 3] 2 4 =
      .ok ((1 : ℚ) * 0 + 0, ⟨1, 4, 2⟩) := by
  have horder : remanence_order [(0 : ℚ), 1, 2, 3] 2 = [2, 1, 3, 0] := by
    norm_num [remanence_order, List.insertionSort, List.orderedInsert,
      List.range, List.range.loop, List.getD]
  refine (C4_remanence [some (0 : ℚ), some 1, some 2, some 3]
    [some (0 : ℚ), some 1, some 2, some 3] 2 4 (by decide)).2 1 0 ?_ ?_
  · show fitLine (remanence_sel_x [(0 : ℚ), 1, 2, 3] 2 4)
      (remanence_sel_y [(0 : ℚ), 1, 2, 3] [(0 : ℚ), 1, 2, 3] 2 4) =
      some (1, 0)
    rw [remanence_sel_x, remanence_sel_y, horder]
    norm_num [List.getD, fitLine, sumQ]
  · show listMin [(0 : ℚ), 1, 2, 3] ≤ 2 ∧ (2 : ℚ) ≤ listMax [(0 : ℚ), 1, 2, 3]
    norm_num [listMin, listMax]

/-- C8, counterexample: `fit_ms_linear` on the degenerate constant-moment
window `H = [1, 2]`, `M = [3, 3]` (so `SS_tot = 0`) reports the R² as a
float NaN (`none`), not 0, refuting the claim for `fit_ms_linear`. -/
theorem C8_cex :
    fit_ms_linear [some (1 : ℚ), some 2] [some (3 : ℚ), some 3] 0 10 =
      .ok (3, 0, none, ⟨2, (0, 10)⟩) ∧ (none : Option ℚ) ≠ some 0 :=
  ⟨by
    simp [fit_ms_linear, prepare_series, fitLine, sumQ, r2_or_nan, ssTot,
      ssRes, meanQ]
    norm_num,
    by simp⟩

/-- C8 (amended): when `SS_tot = 0`, the R² of `fit_linear_tail` and of the
tail detector's window fits (`r2_or_zero`, used at `paramag.py` lines 136,
199 and 317) is 0, but the R² reported by `fit_ms_linear` is a float NaN
(`none`), not 0. -/
theorem C8_r2_degenerate (x y : List ℚ) (s c : ℚ) (h0 : ssTot y = 0)
    (rows : List (ℚ × ℚ)) (lo hi : Option ℚ) (tf : TailFit)
    (h1 : fit_linear_tail rows lo hi = .ok tf)
    (h2 : ssTot ((select_window rows lo hi).map Prod.snd) = 0)
    (hCol mCol : List Cell) (a b ms chi : ℚ) (d : MsLinDetail)
    (r : Option ℚ)
    (h3 : fit_ms_linear hCol mCol a b = .ok (ms, chi, r, d))
    (h4 : ssTot ((((prepare_series hCol).zip (prepare_series mCol)).filter
        (fun p => a ≤ p.1 ∧ p.1 ≤ b)).map Prod.snd) = 0) :
    r2_or_zero x y s c = 0 ∧ tf.r2 = 0 ∧ r = none := by
  refine ⟨by unfold r2_or_zero; rw [if_pos h0], ?_, ?_⟩
  · simp only [fit_linear_tail] at h1
    split at h1
    · exact absurd h1 (by simp)
    · split at h1
      · exact absurd h1 (by simp)
      · simp only [Except.ok.injEq] at h1
        rw [← h1]
        show r2_or_zero _ _ _ _ = 0
        unfold r2_or_zero
        rw [if_pos h2]
  · simp only [fit_ms_linear] at h3
    split at h3
    · exact absurd h3 (by simp)
    · split at h3
      · exact absurd h3 (by simp)
      · split at h3
        · exact absurd h3 (by simp)
        · simp only [Except.ok.injEq, Prod.mk.injEq] at h3
          obtain ⟨-, -, hr, -⟩ := h3
          rw [← hr]
          unfold r2_or_nan
          rw [if_neg]
          rw [h4]
          exact lt_irrefl 0

/-- C8, witness: the amended statement evaluated on concrete degenerate
inputs for all three fits. -/
theorem C8_r2_degenerate_w :
    r2_or_zero [(1 : ℚ), 2] [(3 : ℚ), 3] 0 3 = 0 ∧
    (⟨0, 3, 0, 3, 1, 5⟩ : TailFit).r2 = 0 ∧ (none : Option ℚ) = none :=
  C8_r2_degenerate [(1 : ℚ), 2] [(3 : ℚ), 3] 0 3
    (by norm_num [ssTot, meanQ, sumQ])
    [((1 : ℚ), 3), (2, 3), (5, 3)] (some 0) (some 10) ⟨0, 3, 0, 3, 1, 5⟩
    (by norm_num [fit_linear_tail, select_window, fitLine, sumQ, r2_or_zero,
      ssTot, ssRes, meanQ, listMin, listMax])
    (by norm_num [select_window, ssTot, meanQ, sumQ])
    [some (1 : ℚ), some 2] [some (4 : ℚ), some 4] 0 10 4 0 ⟨2, (0, 10)⟩
    none
    (by
      simp [fit_ms_linear, prepare_series, fitLine, sumQ, r2_or_nan, ssTot,
        ssRes, meanQ]
      norm_num)
    (by
      simp [prepare_series, ssTot, meanQ, sumQ]
      norm_num)

/-- C6, counterexample: two datasets on which both branches fail with
*different* diagnostic notes produce the *same* constant error value
`"No valid high-field tails detected"`: the raised error does not carry the
accumulated per-branch notes (they are attached only to the success
result). -/
theorem C6_cex :
    autodetect_windows defaultAutoParams [(some (0 : ℚ), some 1)] =
      .error ("No valid high-field tails detected") ∧
    autodetect_windows defaultAutoParams
      [(some (1 : ℚ), some 2), (some 2, some 3), (some 3, some 4)] =
      .error ("No valid high-field tails detected") ∧
    autodetect_notes defaultAutoParams [(some (0 : ℚ), some 1)] =
      ["neg branch: no data", "pos branch: no data"] ∧
    autodetect_notes defaultAutoParams
      [(some (1 : ℚ), some 2), (some 2, some 3), (some 3, some 4)] =
      ["neg branch: no data", "pos branch: insufficient points"] ∧
    (["neg branch: no data", "pos branch: no data"] : List String) ≠
      ["neg branch: no data", "pos branch: insufficient points"] := by
  have hpbe : ∀ name, process_branch defaultAutoParams ([] : List (ℚ × ℚ))
      name = (none, [name ++ " branch: no data"]) := by
    intro name
    rw [process_branch, if_pos rfl]
  have hb1 : auto_branches defaultAutoParams [(some (0 : ℚ), some 1)] =
      ((none, ["neg branch: no data"]), (none, ["pos branch: no data"])) := by
    rw [auto_branches,
      (show dropna_pair [(some (0 : ℚ), some 1)] = [(0, 1)] from rfl)]
    norm_num [maxAbs, defaultAutoParams, hpbe]
    all_goals decide
  have hb2 : auto_branches defaultAutoParams
      [(some (1 : ℚ), some 2), (some 2, some 3), (some 3, some 4)] =
      ((none, ["neg branch: no data"]),
        (none, ["pos branch: insufficient points"])) := by
    have hpb : process_branch defaultAutoParams
        [((1 : ℚ), (2 : ℚ)), (2, 3), (3, 4)] ("pos") =
        (none, ["pos branch: insufficient points"]) := by
      have hs : pb_sorted [((1 : ℚ), (2 : ℚ)), (2, 3), (3, 4)] ("pos") =
          [(3, 4), (2, 3), (1, 2)] := by
        rw [pb_sorted, if_pos rfl]
        norm_num [List.insertionSort, List.orderedInsert]
      rw [process_branch]
      norm_num [hs, defaultAutoParams]
      all_goals decide
    rw [auto_branches,
      (show dropna_pair [(some (1 : ℚ), some 2), (some 2, some 3),
        (some 3, some 4)] = [(1, 2), (2, 3), (3, 4)] from rfl)]
    norm_num [maxAbs, defaultAutoParams, hpbe, hpb]
    all_goals decide
  refine ⟨?_, ?_, ?_, ?_, by simp⟩
  · rw [autodetect_windows, if_neg (by decide), hb1]
  · rw [autodetect_windows, if_neg (by decide), hb2]
  · rw [autodetect_notes, if_neg (by decide), hb1]
    rfl
  · rw [autodetect_notes, if_neg (by decide), hb2]
    rfl

/-- C6 (amended): `autodetect_windows` either returns a result with at
least one successful branch whose combined susceptibility is the
`np.median` of the successful branch slopes (their mean when both
succeeded) and whose `notes` field carries the accumulated diagnostics, or
fails with one of the two constant error messages (`"No valid data"` for
empty cleaned input, `"No valid high-field tails detected"` when neither
branch succeeds); it never returns a result with zero successful branches,
and the error value does not carry the notes. -/
theorem C6_autodetect (p : AutoParams) (rows : List (Cell × Cell)) :
    (∀ r, autodetect_windows p rows = .ok r →
      (r.neg.isSome ∨ r.pos.isSome) ∧
      r.chi_combined = npMedian ((r.neg.map BranchRec.chi).toList ++
        (r.pos.map BranchRec.chi).toList) ∧
      r.notes = autodetect_notes p rows) ∧
    (∀ e, autodetect_windows p rows = .error e →
      e = "No valid data" ∨ e = "No valid high-field tails detected") := by
  constructor
  · intro r hr
    simp only [autodetect_windows] at hr
    split at hr
    · exact absurd hr (by simp)
    · rename_i hne
      rw [autodetect_notes, if_neg hne]
      split at hr
      · exact absurd hr (by simp)
      · simp only [Except.ok.injEq] at hr
        subst hr
        simp [npMedian]
      · simp only [Except.ok.injEq] at hr
        subst hr
        simp [npMedian]
      · simp only [Except.ok.injEq] at hr
        subst hr
        simp [npMedian]
  · intro e he
    simp only [autodetect_windows] at he
    split at he
    · exact Or.inl (Except.error.inj he).symm
    · split at he
      · exact Or.inr (Except.error.inj he).symm
      · exact absurd he (by simp)
      · exact absurd he (by simp)
      · exact absurd he (by simp)

/-- C6, witness: the amended statement at a concrete successful run (a
positive-only linear branch with relaxed parameters). -/
theorem C6_autodetect_w :
    ((⟨none, some ⟨1, 2, 1, 2, 0, 1, 2⟩, 2,
        ["neg branch: no data"]⟩ : AutoResult).neg.isSome ∨
      (⟨none, some ⟨1, 2, 1, 2, 0, 1, 2⟩, 2,
        ["neg branch: no data"]⟩ : AutoResult).pos.isSome) ∧
    (⟨none, some ⟨1, 2, 1, 2, 0, 1, 2⟩, 2,
        ["neg branch: no data"]⟩ : AutoResult).chi_combined =
      npMedian ((((⟨none, some ⟨1, 2, 1, 2, 0, 1, 2⟩, 2,
        ["neg branch: no data"]⟩ : AutoResult)).neg.map BranchRec.chi).toList
        ++ (((⟨none, some ⟨1, 2, 1, 2, 0, 1, 2⟩, 2,
        ["neg branch: no data"]⟩ : AutoResult)).pos.map
          BranchRec.chi).toList) ∧
    (⟨none, some ⟨1, 2, 1, 2, 0, 1, 2⟩, 2,
        ["neg branch: no data"]⟩ : AutoResult).notes =
      autodetect_notes ⟨0, 0, 1/2, 1/10, none, 1, 2, 1/10, none⟩
        [(some (1 : ℚ), some 2), (some 2, some 4)] := by
  have hsort : pb_sorted [((1 : ℚ), (2 : ℚ)), (2, 4)] ("pos") =
      [(2, 4), (1, 2)] := by
    rw [pb_sorted, if_pos rfl]
    norm_num [List.insertionSort, List.orderedInsert]
  have hslide : slide_loop ⟨0, 0, 1/2, 1/10, none, 1, 2, 1/10, none⟩
      [(2 : ℚ), 1] [(4 : ℚ), 2] 2 2 3 0 none [] = (some 0, [2]) := by
    norm_num [slide_loop, slide_eval, fitLine, sumQ, r2_or_zero, ssTot,
      ssRes, meanQ]
  have htrim : trim_loop [(2 : ℚ)] (1/10) 1 = 1 := by norm_num [trim_loop]
  have hfin : pb_finish ⟨0, 0, 1/2, 1/10, none, 1, 2, 1/10, none⟩
      [(2 : ℚ), 1] [(4 : ℚ), 2] ("pos") 0 1 2 =
      (some ⟨1, 2, 1, 2, 0, 1, 2⟩, []) := by
    norm_num [pb_finish, pb_endIdx, intTrunc, fitLine, sumQ, r2_or_zero,
      ssTot, ssRes, meanQ, listMin, listMax, min_def,
      (by decide : ((2 : ℤ)).toNat = 2)]
    intro h
    simp at h
  have hpb : process_branch ⟨0, 0, 1/2, 1/10, none, 1, 2, 1/10, none⟩
      [((1 : ℚ), (2 : ℚ)), (2, 4)] ("pos") =
      (some ⟨1, 2, 1, 2, 0, 1, 2⟩, []) := by
    simp only [process_branch, hsort]
    norm_num [pb_yd, intTrunc, hslide, htrim, hfin]
    simp
  have hbr : auto_branches ⟨0, 0, 1/2, 1/10, none, 1, 2, 1/10, none⟩
      [(some (1 : ℚ), some 2), (some 2, some 4)] =
      ((none, ["neg branch: no data"]), (some ⟨1, 2, 1, 2, 0, 1, 2⟩, [])) := by
    have hpbe : process_branch ⟨0, 0, 1/2, 1/10, none, 1, 2, 1/10, none⟩
        ([] : List (ℚ × ℚ)) ("neg") = (none, ["neg branch: no data"]) := by
      rw [process_branch, if_pos rfl]
      decide
    rw [auto_branches,
      (show dropna_pair [(some (1 : ℚ), some 2), (some 2, some 4)] =
        [(1, 2), (2, 4)] from rfl)]
    norm_num [maxAbs, hpbe, hpb]
  have hok : autodetect_windows ⟨0, 0, 1/2, 1/10, none, 1, 2, 1/10, none⟩
      [(some (1 : ℚ), some 2), (some 2, some 4)] =
      .ok ⟨none, some ⟨1, 2, 1, 2, 0, 1, 2⟩, 2, ["neg branch: no data"]⟩ := by
    rw [autodetect_windows, if_neg (by decide), hbr]
    norm_num [npMedian, List.insertionSort, List.orderedInsert, List.getD]
  exact (C6_autodetect ⟨0, 0, 1/2, 1/10, none, 1, 2, 1/10, none⟩
    [(some (1 : ℚ), some 2), (some 2, some 4)]).1
    ⟨none, some ⟨1, 2, 1, 2, 0, 1, 2⟩, 2, ["neg branch: no data"]⟩ hok

/-- Helper: Python's `min(·, key=abs)` fold keeps an element of the list
(or the seed) whose absolute value is minimal. -/
theorem foldlMinAbs_spec (as : List ℚ) : ∀ a : ℚ,
    (as.foldl (fun b c => if |c| < |b| then c else b) a = a ∨
      as.foldl (fun b c => if |c| < |b| then c else b) a ∈ as) ∧
    |as.foldl (fun b c => if |c| < |b| then c else b) a| ≤ |a| ∧
    ∀ z ∈ as, |as.foldl (fun b c => if |c| < |b| then c else b) a| ≤ |z| := by
  induction as with
  | nil =>
    intro a
    simp
  | cons c cs ih =>
    intro a
    simp only [List.foldl_cons]
    by_cases hc : |c| < |a|
    · rw [if_pos hc]
      obtain ⟨hm, hle, hall⟩ := ih c
      refine ⟨Or.inr ?_, le_trans hle (le_of_lt hc), ?_⟩
      · cases hm with
        | inl h => rw [h]; exact List.mem_cons_self c cs
        | inr h => exact List.mem_cons_of_mem c h
      · intro z hz
        rcases List.mem_cons.mp hz with h | h
        · rw [h]; exact hle
        · exact hall z h
    · rw [if_neg hc]
      obtain ⟨hm, hle, hall⟩ := ih a
      refine ⟨?_, hle, ?_⟩
      · cases hm with
        | inl h => exact Or.inl h
        | inr h => exact Or.inr (List.mem_cons_of_mem c h)
      · intro z hz
        rcases List.mem_cons.mp hz with h | h
        · rw [h]; exact le_trans hle (not_lt.mp hc)
        · exact hall z h

/-- Helper: Python's `max(·, key=abs)` fold keeps an element of the list
(or the seed) whose absolute value is maximal. -/
theorem foldlMaxAbs_spec (as : List ℚ) : ∀ a : ℚ,
    (as.foldl (fun b c => if |c| > |b| then c else b) a = a ∨
      as.foldl (fun b c => if |c| > |b| then c else b) a ∈ as) ∧
    |a| ≤ |as.foldl (fun b c => if |c| > |b| then c else b) a| ∧
    ∀ z ∈ as, |z| ≤ |as.foldl (fun b c => if |c| > |b| then c else b) a| := by
  induction as with
  | nil =>
    intro a
    simp
  | cons c cs ih =>
    intro a
    simp only [List.foldl_cons]
    by_cases hc : |c| > |a|
    · rw [if_pos hc]
      obtain ⟨hm, hle, hall⟩ := ih c
      refine ⟨Or.inr ?_, le_trans (le_of_lt hc) hle, ?_⟩
      · cases hm with
        | inl h => rw [h]; exact List.mem_cons_self c cs
        | inr h => exact List.mem_cons_of_mem c h
      · intro z hz
        rcases List.mem_cons.mp hz with h | h
        · rw [h]; exact hle
        · exact hall z h
    · rw [if_neg hc]
      obtain ⟨hm, hle, hall⟩ := ih a
      refine ⟨?_, hle, ?_⟩
      · cases hm with
        | inl h => exact Or.inl h
        | inr h => exact Or.inr (List.mem_cons_of_mem c h)
      · intro z hz
        rcases List.mem_cons.mp hz with h | h
        · rw [h]; exact le_trans (not_lt.mp hc) hle
        · exact hall z h

/-- Helper: `minByAbs` of a nonempty list is a member of smallest `|·|`
(Python `min(l, key=abs)`). -/
theorem minByAbs_spec (l : List ℚ) (hl : l ≠ []) :
    minByAbs l ∈ l ∧ ∀ z ∈ l, |minByAbs l| ≤ |z| := by
  match l with
  | [] => exact absurd rfl hl
  | a :: as =>
    obtain ⟨hm, hle, hall⟩ := foldlMinAbs_spec as a
    show List.foldl (fun b c => if |c| < |b| then c else b) a as ∈ a :: as ∧
      ∀ z ∈ a :: as, |List.foldl (fun b c => if |c| < |b| then c else b) a as| ≤ |z|
    constructor
    · cases hm with
      | inl h => rw [h]; exact List.mem_cons_self a as
      | inr h => exact List.mem_cons_of_mem a h
    · intro z hz
      rcases List.mem_cons.mp hz with h | h
      · rw [h]; exact hle
      · exact hall z h

/-- Helper: `maxByAbs` of a nonempty list is a member of largest `|·|`
(Python `max(l, key=abs)`). -/
theorem maxByAbs_spec (l : List ℚ) (hl : l ≠ []) :
    maxByAbs l ∈ l ∧ ∀ z ∈ l, |z| ≤ |maxByAbs l| := by
  match l with
  | [] => exact absurd rfl hl
  | a :: as =>
    obtain ⟨hm, hle, hall⟩ := foldlMaxAbs_spec as a
    show List.foldl (fun b c => if |c| > |b| then c else b) a as ∈ a :: as ∧
      ∀ z ∈ a :: as, |z| ≤ |List.foldl (fun b c => if |c| > |b| then c else b) a as|
    constructor
    · cases hm with
      | inl h => rw [h]; exact List.mem_cons_self a as
      | inr h => exact List.mem_cons_of_mem a h
    · intro z hz
      rcases List.mem_cons.mp hz with h | h
      · rw [h]; exact hle
      · exact hall z h

/-- C2, counterexample: on the (already H-sorted) dataset
`H = [-4,-3,-2,-1,1,2,3]`, `M = [1,-1,1,1,1,-1,1]` with the explicit window
`(-10,10)`, the crossings are `pos = [3/2, 5/2]`, `neg = [-7/2, -5/2]`; the
claim's procedure (nearest-zero crossing on each side) yields
`(3/2 + 5/2)/2 = 2`, but `coercivity` pairs the nearest positive crossing
with the *farthest* negative crossing (`max(neg, key=abs)`), returning
`(3/2 + 7/2)/2 = 5/2 ≠ 2`. -/
theorem C2_cex :
    coercivity [some (-4 : ℚ), some (-3), some (-2), some (-1), some 1,
        some 2, some 3]
      [some (1 : ℚ), some (-1), some 1, some 1, some 1, some (-1), some 1]
      (some (-10, 10)) =
      .ok (5/2, ⟨(-10, 10), some (3/2), some (-7/2)⟩) ∧
    find_zeros [(-4 : ℚ), -3, -2, -1, 1, 2, 3] [1, -1, 1, 1, 1, -1, 1] =
      ([3/2, 5/2], [-7/2, -5/2]) ∧
    (|minByAbs [(3 : ℚ)/2, 5/2]| + |minByAbs [(-7 : ℚ)/2, -5/2]|) / 2 = 2 ∧
    ((5 : ℚ)/2) ≠ 2 := by
  have hz : find_zeros [(-4 : ℚ), -3, -2, -1, 1, 2, 3]
      [1, -1, 1, 1, 1, -1, 1] = ([3/2, 5/2], [-7/2, -5/2]) := by
    norm_num [find_zeros, signQ]
  have hpair : coerc_pairs [(-4 : ℚ), -3, -2, -1, 1, 2, 3]
      [(1 : ℚ), -1, 1, 1, 1, -1, 1] (-10, 10) =
      [(-4, 1), (-3, -1), (-2, 1), (-1, 1), (1, 1), (2, -1), (3, 1)] := by
    norm_num [coerc_pairs]
  have hsearch : coerc_searched [(-4 : ℚ), -3, -2, -1, 1, 2, 3]
      [(1 : ℚ), -1, 1, 1, 1, -1, 1] (-10, 10) true =
      ([3/2, 5/2], [-7/2, -5/2]) := by
    rw [coerc_searched]
    simp only [hpair]
    norm_num [hz, find_zeros, signQ]
  refine ⟨?_, hz, by norm_num [minByAbs, abs_of_pos, abs_of_neg],
    by norm_num⟩
  rw [coercivity]
  rw [if_neg (by decide), if_neg (by decide)]
  rw [show prepare_series [some (-4 : ℚ), some (-3), some (-2), some (-1),
      some 1, some 2, some 3] = [-4, -3, -2, -1, 1, 2, 3] from rfl]
  rw [show prepare_series [some (1 : ℚ), some (-1), some 1, some 1, some 1,
      some (-1), some 1] = [1, -1, 1, 1, 1, -1, 1] from rfl]
  rw [show coerc_window [(-4 : ℚ), -3, -2, -1, 1, 2, 3] (some (-10, 10)) =
      ((-10 : ℚ), 10) from rfl]
  rw [if_neg (by rw [hpair]; norm_num)]
  rw [show (some ((-10 : ℚ), (10 : ℚ))).isSome = true from rfl, hsearch]
  rw [coerc_combine]
  rw [if_neg (by simp)]
  norm_num [minByAbs, maxByAbs, abs_of_pos, abs_of_neg]

/-- C2 (amended): `coercivity` searches for sign changes of `M` between
adjacent samples *in data order* (it does not sort by `H`) within the
window, interpolating each crossing as `Hz = H1 + (H2−H1)·(−M1)/(M2−M1)`;
when both sides have crossings it selects the positive crossing nearest
zero but the negative crossing *farthest* from zero and returns the mean of
their absolute values (when only one side has crossings it returns the mean
of `|z|` over that side's crossings, after re-running the search over the
whole dataset if the window was explicit). -/
theorem C2_coercivity (hCol mCol : List Cell) (hwin : Option (ℚ × ℚ))
    (hsz : 2 ≤ (prepare_series hCol).length ∧
      2 ≤ (prepare_series mCol).length)
    (hal : (prepare_series hCol).length = (prepare_series mCol).length)
    (hw2 : 2 ≤ (coerc_pairs (prepare_series hCol) (prepare_series mCol)
      (coerc_window (prepare_series hCol) hwin)).length)
    (hpos : (coerc_searched (prepare_series hCol) (prepare_series mCol)
      (coerc_window (prepare_series hCol) hwin) hwin.isSome).1 ≠ [])
    (hneg : (coerc_searched (prepare_series hCol) (prepare_series mCol)
      (coerc_window (prepare_series hCol) hwin) hwin.isSome).2 ≠ []) :
    ∃ zp zn,
      zp ∈ (coerc_searched (prepare_series hCol) (prepare_series mCol)
        (coerc_window (prepare_series hCol) hwin) hwin.isSome).1 ∧
      (∀ z ∈ (coerc_searched (prepare_series hCol) (prepare_series mCol)
        (coerc_window (prepare_series hCol) hwin) hwin.isSome).1,
        |zp| ≤ |z|) ∧
      zn ∈ (coerc_searched (prepare_series hCol) (prepare_series mCol)
        (coerc_window (prepare_series hCol) hwin) hwin.isSome).2 ∧
      (∀ z ∈ (coerc_searched (prepare_series hCol) (prepare_series mCol)
        (coerc_window (prepare_series hCol) hwin) hwin.isSome).2,
        |z| ≤ |zn|) ∧
      coercivity hCol mCol hwin =
        .ok ((|zp| + |zn|) / 2,
          ⟨coerc_window (prepare_series hCol) hwin, some zp, some zn⟩) := by
  obtain ⟨hp1, hp2⟩ := minByAbs_spec _ hpos
  obtain ⟨hn1, hn2⟩ := maxByAbs_spec _ hneg
  refine ⟨minByAbs _, maxByAbs _, hp1, hp2, hn1, hn2, ?_⟩
  rw [coercivity]
  rw [if_neg (by push_neg; exact hsz), if_neg (not_not_intro hal),
    if_neg (not_lt.mpr hw2)]
  rw [coerc_combine]
  rw [if_neg (not_or_intro hpos hneg)]

/-- C2, witness: the amended statement at the counterexample dataset, where
the selected crossings are `3/2` (nearest positive) and `-7/2` (farthest
negative). -/
theorem C2_coercivity_w :
    ∃ zp zn,
      zp ∈ (coerc_searched (prepare_series [some (-4 : ℚ), some (-3),
        some (-2), some (-1), some 1, some 2, some 3])
        (prepare_series [some (1 : ℚ), some (-1), some 1, some 1, some 1,
          some (-1), some 1])
        (coerc_window (prepare_series [some (-4 : ℚ), some (-3), some (-2),
          some (-1), some 1, some 2, some 3]) (some (-10, 10)))
        (some ((-10 : ℚ), (10 : ℚ))).isSome).1 ∧
      (∀ z ∈ (coerc_searched (prepare_series [some (-4 : ℚ), some (-3),
        some (-2), some (-1), some 1, some 2, some 3])
        (prepare_series [some (1 : ℚ), some (-1), some 1, some 1, some 1,
          some (-1), some 1])
        (coerc_window (prepare_series [some (-4 : ℚ), some (-3), some (-2),
          some (-1), some 1, some 2, some 3]) (some (-10, 10)))
        (some ((-10 : ℚ), (10 : ℚ))).isSome).1, |zp| ≤ |z|) ∧
      zn ∈ (coerc_searched (prepare_series [some (-4 : ℚ), some (-3),
        some (-2), some (-1), some 1, some 2, some 3])
        (prepare_series [some (1 : ℚ), some (-1), some 1, some 1, some 1,
          some (-1), some 1])
        (coerc_window (prepare_series [some (-4 : ℚ), some (-3), some (-2),
          some (-1), some 1, some 2, some 3]) (some (-10, 10)))
        (some ((-10 : ℚ), (10 : ℚ))).isSome).2 ∧
      (∀ z ∈ (coerc_searched (prepare_series [some (-4 : ℚ), some (-3),
        some (-2), some (-1), some 1, some 2, some 3])
        (prepare_series [some (1 : ℚ), some (-1), some 1, some 1, some 1,
          some (-1), some 1])
        (coerc_window (prepare_series [some (-4 : ℚ), some (-3), some (-2),
          some (-1), some 1, some 2, some 3]) (some (-10, 10)))
        (some ((-10 : ℚ), (10 : ℚ))).isSome).2, |z| ≤ |zn|) ∧
      coercivity [some (-4 : ℚ), some (-3), some (-2), some (-1), some 1,
          some 2, some 3]
        [some (1 : ℚ), some (-1), some 1, some 1, some 1, some (-1), some 1]
        (some (-10, 10)) =
        .ok ((|zp| + |zn|) / 2,
          ⟨coerc_window (prepare_series [some (-4 : ℚ), some (-3), some (-2),
            some (-1), some 1, some 2, some 3]) (some (-10, 10)),
            some zp, some zn⟩) := by
  have hpair : coerc_pairs [(-4 : ℚ), -3, -2, -1, 1, 2, 3]
      [(1 : ℚ), -1, 1, 1, 1, -1, 1] (-10, 10) =
      [(-4, 1), (-3, -1), (-2, 1), (-1, 1), (1, 1), (2, -1), (3, 1)] := by
    norm_num [coerc_pairs]
  have hsearch : coerc_searched [(-4 : ℚ), -3, -2, -1, 1, 2, 3]
      [(1 : ℚ), -1, 1, 1, 1, -1, 1] (-10, 10) true =
      ([3/2, 5/2], [-7/2, -5/2]) := by
    rw [coerc_searched]
    simp only [hpair]
    norm_num [find_zeros, signQ]
  refine C2_coercivity _ _ _ (by decide) (by decide) ?_ ?_ ?_
  · show 2 ≤ (coerc_pairs [(-4 : ℚ), -3, -2, -1, 1, 2, 3]
      [(1 : ℚ), -1, 1, 1, 1, -1, 1] (-10, 10)).length
    rw [hpair]
    norm_num
  · show (coerc_searched [(-4 : ℚ), -3, -2, -1, 1, 2, 3]
      [(1 : ℚ), -1, 1, 1, 1, -1, 1] (-10, 10) true).1 ≠ []
    rw [hsearch]
    simp
  · show (coerc_searched [(-4 : ℚ), -3, -2, -1, 1, 2, 3]
      [(1 : ℚ), -1, 1, 1, 1, -1, 1] (-10, 10) true).2 ≠ []
    rw [hsearch]
    simp

/-- C10: with an explicit window, when either side of the windowed crossing
search comes up empty, `coercivity` re-runs the search over the entire
dataset; with the default window (`hwin = None`, ±2 % of max `|H|`) the
result is combined from the windowed crossings only — the search is never
re-run outside the window. -/
theorem C10_coercivity (hCol mCol : List Cell) (w : ℚ × ℚ)
    (hsz : 2 ≤ (prepare_series hCol).length ∧
      2 ≤ (prepare_series mCol).length)
    (hal : (prepare_series hCol).length = (prepare_series mCol).length)
    (hw2some : 2 ≤ (coerc_pairs (prepare_series hCol) (prepare_series mCol)
      w).length)
    (hw2none : 2 ≤ (coerc_pairs (prepare_series hCol) (prepare_series mCol)
      (coerc_window (prepare_series hCol) none)).length) :
    (((find_zeros ((coerc_pairs (prepare_series hCol) (prepare_series mCol)
          w).map Prod.fst)
        ((coerc_pairs (prepare_series hCol) (prepare_series mCol)
          w).map Prod.snd)).1 = [] ∨
      (find_zeros ((coerc_pairs (prepare_series hCol) (prepare_series mCol)
          w).map Prod.fst)
        ((coerc_pairs (prepare_series hCol) (prepare_series mCol)
          w).map Prod.snd)).2 = []) →
      coercivity hCol mCol (some w) =
        coerc_combine w
          (find_zeros (prepare_series hCol) (prepare_series mCol)).1
          (find_zeros (prepare_series hCol) (prepare_series mCol)).2) ∧
    coercivity hCol mCol none =
      coerc_combine (coerc_window (prepare_series hCol) none)
        (find_zeros ((coerc_pairs (prepare_series hCol)
            (prepare_series mCol)
            (coerc_window (prepare_series hCol) none)).map Prod.fst)
          ((coerc_pairs (prepare_series hCol) (prepare_series mCol)
            (coerc_window (prepare_series hCol) none)).map Prod.snd)).1
        (find_zeros ((coerc_pairs (prepare_series hCol)
            (prepare_series mCol)
            (coerc_window (prepare_series hCol) none)).map Prod.fst)
          ((coerc_pairs (prepare_series hCol) (prepare_series mCol)
            (coerc_window (prepare_series hCol) none)).map Prod.snd)).2 := by
  constructor
  · intro hfall
    rw [coercivity]
    rw [if_neg (by push_neg; exact hsz), if_neg (not_not_intro hal)]
    rw [show coerc_window (prepare_series hCol) (some w) = w from rfl]
    rw [if_neg (not_lt.mpr hw2some)]
    rw [show (some w).isSome = true from rfl]
    rw [coerc_searched]
    rw [if_pos ⟨hfall, rfl⟩]
  · rw [coercivity]
    rw [if_neg (by push_neg; exact hsz), if_neg (not_not_intro hal),
      if_neg (not_lt.mpr hw2none)]
    rw [coerc_searched]
    rw [if_neg (by simp)]

/-- C10, witness: `H = [-100, -1/2, 2/5, 100]`, `M = [-5, 1, 2, 3]`,
explicit window `(-1, 1)`; the windowed search finds no crossing, so the
explicit-window call falls back to the whole data, while the default ±2 %
window (`(-2, 2)` here) does not. -/
theorem C10_coercivity_w :
    (((find_zeros ((coerc_pairs (prepare_series [some (-100 : ℚ),
          some (-1/2), some (2/5), some 100])
          (prepare_series [some (-5 : ℚ), some 1, some 2, some 3])
          ((-1 : ℚ), (1 : ℚ))).map Prod.fst)
        ((coerc_pairs (prepare_series [some (-100 : ℚ), some (-1/2),
          some (2/5), some 100])
          (prepare_series [some (-5 : ℚ), some 1, some 2, some 3])
          ((-1 : ℚ), (1 : ℚ))).map Prod.snd)).1 = [] ∨
      (find_zeros ((coerc_pairs (prepare_series [some (-100 : ℚ),
          some (-1/2), some (2/5), some 100])
          (prepare_series [some (-5 : ℚ), some 1, some 2, some 3])
          ((-1 : ℚ), (1 : ℚ))).map Prod.fst)
        ((coerc_pairs (prepare_series [some (-100 : ℚ), some (-1/2),
          some (2/5), some 100])
          (prepare_series [some (-5 : ℚ), some 1, some 2, some 3])
          ((-1 : ℚ), (1 : ℚ))).map Prod.snd)).2 = []) →
      coercivity [some (-100 : ℚ), some (-1/2), some (2/5), some 100]
        [some (-5 : ℚ), some 1, some 2, some 3] (some ((-1 : ℚ), 1)) =
        coerc_combine ((-1 : ℚ), (1 : ℚ))
          (find_zeros (prepare_series [some (-100 : ℚ), some (-1/2),
            some (2/5), some 100])
            (prepare_series [some (-5 : ℚ), some 1, some 2, some 3])).1
          (find_zeros (prepare_series [some (-100 : ℚ), some (-1/2),
            some (2/5), some 100])
            (prepare_series [some (-5 : ℚ), some 1, some 2, some 3])).2) ∧
    coercivity [some (-100 : ℚ), some (-1/2), some (2/5), some 100]
      [some (-5 : ℚ), some 1, some 2, some 3] none =
      coerc_combine (coerc_window (prepare_series [some (-100 : ℚ),
          some (-1/2), some (2/5), some 100]) none)
        (find_zeros ((coerc_pairs (prepare_series [some (-100 : ℚ),
            some (-1/2), some (2/5), some 100])
            (prepare_series [some (-5 : ℚ), some 1, some 2, some 3])
            (coerc_window (prepare_series [some (-100 : ℚ), some (-1/2),
              some (2/5), some 100]) none)).map Prod.fst)
          ((coerc_pairs (prepare_series [some (-100 : ℚ), some (-1/2),
            some (2/5), some 100])
            (prepare_series [some (-5 : ℚ), some 1, some 2, some 3])
            (coerc_window (prepare_series [some (-100 : ℚ), some (-1/2),
              some (2/5), some 100]) none)).map Prod.snd)).1
        (find_zeros ((coerc_pairs (prepare_series [some (-100 : ℚ),
            some (-1/2), some (2/5), some 100])
            (prepare_series [some (-5 : ℚ), some 1, some 2, some 3])
            (coerc_window (prepare_series [some (-100 : ℚ), some (-1/2),
              some (2/5), some 100]) none)).map Prod.fst)
          ((coerc_pairs (prepare_series [some (-100 : ℚ), some (-1/2),
            some (2/5), some 100])
            (prepare_series [some (-5 : ℚ), some 1, some 2, some 3])
            (coerc_window (prepare_series [some (-100 : ℚ), some (-1/2),
              some (2/5), some 100]) none)).map Prod.snd)).2 := by
  refine C10_coercivity _ _ _ (by decide) (by decide) ?_ ?_
  · show 2 ≤ (coerc_pairs [(-100 : ℚ), -1/2, 2/5, 100]
      [(-5 : ℚ), 1, 2, 3] ((-1 : ℚ), (1 : ℚ))).length
    norm_num [coerc_pairs]
  · show 2 ≤ (coerc_pairs [(-100 : ℚ), -1/2, 2/5, 100]
      [(-5 : ℚ), 1, 2, 3] (coerc_window [(-100 : ℚ), -1/2, 2/5, 100]
        none)).length
    norm_num [coerc_pairs, coerc_window, maxAbs, abs_of_pos, abs_of_neg,
      max_def]

/-- C7, counterexample: on `H = M = [-5,-4,-3,-2,-1,0,1,2,3,10]` the
default window of `saturation_magnetization` keeps the points with
`|H| ≥ quantile(|H|, 0.8) = 21/5` — namely `H ∈ {-5, 10}` — whereas the
claim's canonical interval `[H.min() + 0.9·(H.max()−H.min()), H.max()] =
[8.5, 10]` contains only `H = 10`; the point sets differ, so the regression
is not performed over the claimed window. -/
theorem C7_cex :
    satmag_points [(-5 : ℚ), -4, -3, -2, -1, 0, 1, 2, 3, 10]
      [(-5 : ℚ), -4, -3, -2, -1, 0, 1, 2, 3, 10] none (4/5) =
      [(-5, -5), (10, 10)] ∧
    (([(-5 : ℚ), -4, -3, -2, -1, 0, 1, 2, 3, 10].zip
        [(-5 : ℚ), -4, -3, -2, -1, 0, 1, 2, 3, 10]).filter
      (fun r =>
        listMin [(-5 : ℚ), -4, -3, -2, -1, 0, 1, 2, 3, 10] +
          (9/10) * (listMax [(-5 : ℚ), -4, -3, -2, -1, 0, 1, 2, 3, 10] -
            listMin [(-5 : ℚ), -4, -3, -2, -1, 0, 1, 2, 3, 10]) ≤ r.1 ∧
        r.1 ≤ listMax [(-5 : ℚ), -4, -3, -2, -1, 0, 1, 2, 3, 10])) =
      [(10, 10)] ∧
    ([((-5 : ℚ), (-5 : ℚ)), (10, 10)] : List (ℚ × ℚ)) ≠ [(10, 10)] := by
  have hq : quantileQ [(5 : ℚ), 4, 3, 2, 1, 0, 1, 2, 3, 10] (4/5) =
      21/5 := by
    norm_num [quantileQ, List.insertionSort, List.orderedInsert, List.getD,
      (by decide : ((7 : ℤ)).toNat = 7), min_def]
  refine ⟨?_, ?_, by simp⟩
  · rw [satmag_points]
    norm_num [satmag_default_keep, hq, abs_of_pos, abs_of_neg]
  · norm_num [listMin, listMax, min_def, max_def]

/-- C7 (amended): when `saturation_magnetization` is called without an
explicit window, the points it selects are exactly those with
`|H| ≥ quantile(|H|, q)` (default `q = 0.8`, i.e. the top 20 % of samples
by `|H|`, both wings — not the top 10 % of the field *range*), and the
sign-folded regression (fit of `sign(H)·M` against `|H|`) is performed over
exactly those points; the reported window is the min–max field span of the
selected points. -/
theorem C7_satmag (hCol mCol : List Cell) (q chi msv : ℚ)
    (hne : prepare_series hCol ≠ [] ∧ prepare_series mCol ≠ [])
    (hal : (prepare_series hCol).length = (prepare_series mCol).length)
    (hn2 : 2 ≤ (satmag_points (prepare_series hCol) (prepare_series mCol)
      none q).length)
    (hfit : fitLine
      ((satmag_points (prepare_series hCol) (prepare_series mCol) none
        q).map (fun r => |r.1|))
      ((satmag_points (prepare_series hCol) (prepare_series mCol) none
        q).map (fun r => signQ r.1 * r.2)) = some (chi, msv)) :
    satmag_points (prepare_series hCol) (prepare_series mCol) none q =
      ((prepare_series hCol).zip (prepare_series mCol)).filter
        (fun r => quantileQ ((prepare_series hCol).map (fun v => |v|)) q ≤
          |r.1|) ∧
    ∃ d : SatDetail,
      saturation_magnetization hCol mCol none false none q = .ok (msv, d) ∧
      d.chi = chi ∧
      d.window = (listMin ((satmag_points (prepare_series hCol)
          (prepare_series mCol) none q).map Prod.fst),
        listMax ((satmag_points (prepare_series hCol) (prepare_series mCol)
          none q).map Prod.fst)) ∧
      d.unit = "raw" := by
  constructor
  · rw [satmag_points]
    simp only [satmag_default_keep]
  · refine ⟨⟨chi,
      if 2 < (satmag_points (prepare_series hCol) (prepare_series mCol)
          none q).length then
        some (ssRes ((satmag_points (prepare_series hCol)
            (prepare_series mCol) none q).map (fun r => |r.1|))
          ((satmag_points (prepare_series hCol) (prepare_series mCol)
            none q).map (fun r => signQ r.1 * r.2)) chi msv /
          (((satmag_points (prepare_series hCol) (prepare_series mCol)
            none q).length : ℚ) - 2))
      else none,
      (listMin ((satmag_points (prepare_series hCol) (prepare_series mCol)
          none q).map Prod.fst),
        listMax ((satmag_points (prepare_series hCol) (prepare_series mCol)
          none q).map Prod.fst)), "raw"⟩, ?_, rfl, rfl, rfl⟩
    rw [saturation_magnetization]
    rw [if_neg (not_or_intro (fun c => hne.1 (List.length_eq_zero.mp c))
      (fun c => hne.2 (List.length_eq_zero.mp c)))]
    rw [if_neg (not_not_intro hal), if_neg (not_lt.mpr hn2)]
    simp only [hfit]
    intro p h
    exact absurd h (by simp)

/-- C7, witness: the amended statement at the counterexample dataset — the
selected points are `(-5,-5)` and `(10,10)`, the folded fit is the line
`y = x` (`chi = 1`, `Ms = 0`). -/
theorem C7_satmag_w :
    satmag_points (prepare_series [some (-5 : ℚ), some (-4), some (-3),
        some (-2), some (-1), some 0, some 1, some 2, some 3, some 10])
      (prepare_series [some (-5 : ℚ), some (-4), some (-3), some (-2),
        some (-1), some 0, some 1, some 2, some 3, some 10]) none (4/5) =
      ((prepare_series [some (-5 : ℚ), some (-4), some (-3), some (-2),
        some (-1), some 0, some 1, some 2, some 3, some 10]).zip
        (prepare_series [some (-5 : ℚ), some (-4), some (-3), some (-2),
          some (-1), some 0, some 1, some 2, some 3, some 10])).filter
        (fun r => quantileQ ((prepare_series [some (-5 : ℚ), some (-4),
          some (-3), some (-2), some (-1), some 0, some 1, some 2, some 3,
          some 10]).map (fun v => |v|)) (4/5) ≤ |r.1|) ∧
    ∃ d : SatDetail,
      saturation_magnetization [some (-5 : ℚ), some (-4), some (-3),
          some (-2), some (-1), some 0, some 1, some 2, some 3, some 10]
        [some (-5 : ℚ), some (-4), some (-3), some (-2), some (-1), some 0,
          some 1, some 2, some 3, some 10] none false none (4/5) =
        .ok (0, d) ∧
      d.chi = 1 ∧
      d.window = (listMin ((satmag_points (prepare_series [some (-5 : ℚ),
          some (-4), some (-3), some (-2), some (-1), some 0, some 1,
          some 2, some 3, some 10])
          (prepare_series [some (-5 : ℚ), some (-4), some (-3), some (-2),
            some (-1), some 0, some 1, some 2, some 3, some 10]) none
          (4/5)).map Prod.fst),
        listMax ((satmag_points (prepare_series [some (-5 : ℚ), some (-4),
          some (-3), some (-2), some (-1), some 0, some 1, some 2, some 3,
          some 10])
          (prepare_series [some (-5 : ℚ), some (-4), some (-3), some (-2),
            some (-1), some 0, some 1, some 2, some 3, some 10]) none
          (4/5)).map Prod.fst)) ∧
      d.unit = "raw" := by
  have hq : quantileQ [(5 : ℚ), 4, 3, 2, 1, 0, 1, 2, 3, 10] (4/5) =
      21/5 := by
    norm_num [quantileQ, List.insertionSort, List.orderedInsert, List.getD,
      (by decide : ((7 : ℤ)).toNat = 7), min_def]
  have hsel : satmag_points [(-5 : ℚ), -4, -3, -2, -1, 0, 1, 2, 3, 10]
      [(-5 : ℚ), -4, -3, -2, -1, 0, 1, 2, 3, 10] none (4/5) =
      [(-5, -5), (10, 10)] := by
    rw [satmag_points]
    norm_num [satmag_default_keep, hq, abs_of_pos, abs_of_neg]
  refine C7_satmag _ _ (4/5) 1 0 (by constructor <;> decide) (by decide)
    ?_ ?_
  · show 2 ≤ (satmag_points [(-5 : ℚ), -4, -3, -2, -1, 0, 1, 2, 3, 10]
      [(-5 : ℚ), -4, -3, -2, -1, 0, 1, 2, 3, 10] none (4/5)).length
    rw [hsel]
    norm_num
  · show fitLine
      ((satmag_points [(-5 : ℚ), -4, -3, -2, -1, 0, 1, 2, 3, 10]
        [(-5 : ℚ), -4, -3, -2, -1, 0, 1, 2, 3, 10] none (4/5)).map
        (fun r => |r.1|))
      ((satmag_points [(-5 : ℚ), -4, -3, -2, -1, 0, 1, 2, 3, 10]
        [(-5 : ℚ), -4, -3, -2, -1, 0, 1, 2, 3, 10] none (4/5)).map
        (fun r => signQ r.1 * r.2)) = some (1, 0)
    rw [hsel]
    norm_num [fitLine, sumQ, signQ, abs_of_pos, abs_of_neg]

/-! ### Helper lemmas for the tail-detector claims -/

/-- Truncation toward zero does not exceed a nonnegative rational. -/
theorem intTrunc_le_self (q : ℚ) (h : 0 ≤ q) : (intTrunc q : ℚ) ≤ q := by
  rw [intTrunc, if_pos h]
  exact Int.floor_le q

/-- Truncation toward zero of a negative rational is nonpositive. -/
theorem intTrunc_nonpos (q : ℚ) (h : q < 0) : intTrunc q ≤ 0 := by
  rw [intTrunc, if_neg (not_le.mpr h)]
  have : (0 : ℤ) ≤ ⌊-q⌋ := Int.floor_nonneg.mpr (by linarith)
  omega

/-- The final region's last index never exceeds `n − 1`. -/
theorem pb_endIdx_le (p : AutoParams) (n start validCount w : ℕ) :
    pb_endIdx p n start validCount w ≤ (n : ℤ) - 1 := by
  simp only [pb_endIdx]
  have h1 : min ((start : ℤ) + validCount + w - 1) ((n : ℤ) - 1) ≤
      (n : ℤ) - 1 := min_le_right _ _
  split
  · rename_i h
    omega
  · exact h1

/-- The final region holds at most `int(max_frac · n)` points. -/
theorem pb_endIdx_cap (p : AutoParams) (n start validCount w : ℕ) :
    pb_endIdx p n start validCount w - start + 1 ≤
      intTrunc (p.max_frac * n) := by
  simp only [pb_endIdx]
  split
  · omega
  · rename_i h
    omega

/-- The stability trim never discards the last remaining slope: started
from a count of at least one, it returns a count of at least one. -/
theorem trim_ge_one (slopes : List ℚ) (maxRel : ℚ) :
    ∀ c, 1 ≤ c → 1 ≤ trim_loop slopes maxRel c := by
  intro c
  induction c with
  | zero => intro h; omega
  | succ c ih =>
    intro _
    simp only [trim_loop]
    split
    · exact le_refl 1
    · split
      · omega
      · rename_i hc0 _
        exact ih (by omega)

/-- Left cancellation for string concatenation. -/
theorem string_append_cancel_left (s t u : String) (h : s ++ t = s ++ u) :
    t = u := by
  have hd := congrArg String.data h
  simp only [String.data_append] at hd
  exact String.ext (List.append_cancel_left hd)

/-- The default head of a nonempty list is a member. -/
theorem headD_mem (l : List ℚ) (hl : l ≠ []) : l.headD 0 ∈ l := by
  match l with
  | a :: as => exact List.mem_cons_self a as

/-- The default last element of a nonempty list is a member. -/
theorem getLastD_mem (l : List ℚ) (hl : l ≠ []) :
    l.getLast?.getD 0 ∈ l := by
  induction l with
  | nil => exact absurd rfl hl
  | cons a as ih =>
    cases as with
    | nil => simp
    | cons b bs =>
      rw [List.getLast?_cons_cons]
      exact List.mem_cons_of_mem a (ih (by simp))

/-- The fold underlying `listMin` computes a lower bound attained on the
seed or a member. -/
theorem foldlMin_spec (as : List ℚ) : ∀ a : ℚ,
    (as.foldl min a = a ∨ as.foldl min a ∈ as) ∧
    as.foldl min a ≤ a ∧ ∀ z ∈ as, as.foldl min a ≤ z := by
  induction as with
  | nil =>
    intro a
    simp
  | cons c cs ih =>
    intro a
    simp only [List.foldl_cons]
    obtain ⟨hm, hle, hall⟩ := ih (min a c)
    refine ⟨?_, le_trans hle (min_le_left a c), ?_⟩
    · cases hm with
      | inl h =>
        rcases min_choice a c with hac | hac
        · exact Or.inl (by rw [h, hac])
        · exact Or.inr (by rw [h, hac]; exact List.mem_cons_self c cs)
      | inr h => exact Or.inr (List.mem_cons_of_mem c h)
    · intro z hz
      rcases List.mem_cons.mp hz with h | h
      · rw [h]; exact le_trans hle (min_le_right a c)
      · exact hall z h

/-- The fold underlying `listMax` computes an upper bound attained on the
seed or a member. -/
theorem foldlMax_spec (as : List ℚ) : ∀ a : ℚ,
    (as.foldl max a = a ∨ as.foldl max a ∈ as) ∧
    a ≤ as.foldl max a ∧ ∀ z ∈ as, z ≤ as.foldl max a := by
  induction as with
  | nil =>
    intro a
    simp
  | cons c cs ih =>
    intro a
    simp only [List.foldl_cons]
    obtain ⟨hm, hle, hall⟩ := ih (max a c)
    refine ⟨?_, le_trans (le_max_left a c) hle, ?_⟩
    · cases hm with
      | inl h =>
        rcases max_choice a c with hac | hac
        · exact Or.inl (by rw [h, hac])
        · exact Or.inr (by rw [h, hac]; exact List.mem_cons_self c cs)
      | inr h => exact Or.inr (List.mem_cons_of_mem c h)
    · intro z hz
      rcases List.mem_cons.mp hz with h | h
      · rw [h]; exact le_trans (le_max_right a c) hle
      · exact hall z h

/-- `listMin` of a nonempty list is its least member. -/
theorem listMin_spec (l : List ℚ) (hl : l ≠ []) :
    listMin l ∈ l ∧ ∀ z ∈ l, listMin l ≤ z := by
  match l with
  | a :: as =>
    have he : listMin (a :: as) = as.foldl min a := by
      rw [listMin]
      simp [min_self]
    obtain ⟨hm, hle, hall⟩ := foldlMin_spec as a
    rw [he]
    constructor
    · cases hm with
      | inl h => rw [h]; exact List.mem_cons_self a as
      | inr h => exact List.mem_cons_of_mem a h
    · intro z hz
      rcases List.mem_cons.mp hz with h | h
      · rw [h]; exact hle
      · exact hall z h

/-- `listMax` of a nonempty list is its greatest member. -/
theorem listMax_spec (l : List ℚ) (hl : l ≠ []) :
    listMax l ∈ l ∧ ∀ z ∈ l, z ≤ listMax l := by
  match l with
  | a :: as =>
    have he : listMax (a :: as) = as.foldl max a := by
      rw [listMax]
      simp [max_self]
    obtain ⟨hm, hle, hall⟩ := foldlMax_spec as a
    rw [he]
    constructor
    · cases hm with
      | inl h => rw [h]; exact List.mem_cons_self a as
      | inr h => exact List.mem_cons_of_mem a h
    · intro z hz
      rcases List.mem_cons.mp hz with h | h
      · rw [h]; exact hle
      · exact hall z h

/-- `|last − head| ≤ max − min` on any nonempty list. -/
theorem abs_last_sub_head_le (l : List ℚ) (hl : l ≠ []) :
    |l.getLast?.getD 0 - l.headD 0| ≤ listMax l - listMin l := by
  have hh := headD_mem l hl
  have hg := getLastD_mem l hl
  obtain ⟨-, hminle⟩ := listMin_spec l hl
  obtain ⟨-, hmaxge⟩ := listMax_spec l hl
  rw [abs_sub_le_iff]
  constructor
  · linarith [hminle _ hh, hmaxge _ hg]
  · linarith [hminle _ hg, hmaxge _ hh]

/-- Lists with the same members have the same `listMin`. -/
theorem listMin_congr_mem (l₁ l₂ : List ℚ) (h₁ : l₁ ≠ []) (h₂ : l₂ ≠ [])
    (hmem : ∀ z : ℚ, z ∈ l₁ ↔ z ∈ l₂) : listMin l₁ = listMin l₂ := by
  obtain ⟨m1, b1⟩ := listMin_spec l₁ h₁
  obtain ⟨m2, b2⟩ := listMin_spec l₂ h₂
  exact le_antisymm (b1 _ ((hmem _).mpr m2)) (b2 _ ((hmem _).mp m1))

/-- Lists with the same members have the same `listMax`. -/
theorem listMax_congr_mem (l₁ l₂ : List ℚ) (h₁ : l₁ ≠ []) (h₂ : l₂ ≠ [])
    (hmem : ∀ z : ℚ, z ∈ l₁ ↔ z ∈ l₂) : listMax l₁ = listMax l₂ := by
  obtain ⟨m1, b1⟩ := listMax_spec l₁ h₁
  obtain ⟨m2, b2⟩ := listMax_spec l₂ h₂
  exact le_antisymm (b2 _ ((hmem _).mp m1)) (b1 _ ((hmem _).mpr m2))

/-- In a list sorted by a transitive relation, the default head is related
to every member. -/
theorem sorted_head_rel (r : ℚ → ℚ → Prop) [IsRefl ℚ r] (l : List ℚ)
    (hs : l.Pairwise r) : ∀ z ∈ l, r (l.headD 0) z := by
  match l with
  | [] => simp
  | a :: as =>
    intro z hz
    rcases List.mem_cons.mp hz with h | h
    · rw [h]
      exact refl_of r _
    · exact (List.pairwise_cons.mp hs).1 z h

/-- In a list sorted by a reflexive relation, every member is related to
the default last element. -/
theorem sorted_rel_last (r : ℚ → ℚ → Prop) [IsRefl ℚ r] :
    ∀ l : List ℚ, l.Pairwise r → ∀ z ∈ l, r z (l.getLast?.getD 0)
  | [] => by simp
  | [a] => by
    intro _ z hz
    simp only [List.mem_singleton] at hz
    rw [hz]
    exact refl_of r _
  | a :: b :: bs => by
    intro hs z hz
    have hlast : (a :: b :: bs).getLast? = (b :: bs).getLast? :=
      List.getLast?_cons_cons
    rw [hlast]
    rcases List.mem_cons.mp hz with h | h
    · rw [h]
      exact (List.pairwise_cons.mp hs).1 _
        (getLastD_mem (b :: bs) (by simp))
    · exact sorted_rel_last r (b :: bs) (List.pairwise_cons.mp hs).2 z h

/-- On an ascending-sorted nonempty list, `|last − head| = max − min`. -/
theorem sorted_span_asc (l : List ℚ) (hl : l ≠ [])
    (hs : l.Pairwise (· ≤ ·)) :
    |l.getLast?.getD 0 - l.headD 0| = listMax l - listMin l := by
  obtain ⟨hmm, hminb⟩ := listMin_spec l hl
  obtain ⟨hxm, hmaxb⟩ := listMax_spec l hl
  have h1 : l.headD 0 = listMin l :=
    le_antisymm (sorted_head_rel (· ≤ ·) l hs _ hmm)
      (hminb _ (headD_mem l hl))
  have h2 : l.getLast?.getD 0 = listMax l :=
    le_antisymm (hmaxb _ (getLastD_mem l hl))
      (sorted_rel_last (· ≤ ·) l hs _ hxm)
  rw [h1, h2]
  exact abs_of_nonneg (by linarith [hminb _ hxm])

/-- On a descending-sorted nonempty list, `|last − head| = max − min`. -/
theorem sorted_span_desc (l : List ℚ) (hl : l ≠ [])
    (hs : l.Pairwise (fun a b => b ≤ a)) :
    |l.getLast?.getD 0 - l.headD 0| = listMax l - listMin l := by
  obtain ⟨hmm, hminb⟩ := listMin_spec l hl
  obtain ⟨hxm, hmaxb⟩ := listMax_spec l hl
  have h1 : l.headD 0 = listMax l :=
    le_antisymm (hmaxb _ (headD_mem l hl))
      (sorted_head_rel (fun a b => b ≤ a) l hs _ hxm)
  have h2 : l.getLast?.getD 0 = listMin l :=
    le_antisymm (sorted_rel_last (fun a b => b ≤ a) l hs _ hmm)
      (hminb _ (getLastD_mem l hl))
  rw [h1, h2]
  rw [abs_sub_comm]
  exact abs_of_nonneg (by linarith [hminb _ hxm])

/-- The span of the sorted branch field column, `|x[-1] − x[0]|`, equals
the branch's total field span `max H − min H`. -/
theorem pb_sorted_span (branch : List (ℚ × ℚ)) (name : String)
    (hb : branch ≠ []) :
    |((pb_sorted branch name).map Prod.fst).getLast?.getD 0 -
      ((pb_sorted branch name).map Prod.fst).headD 0| =
    listMax (branch.map Prod.fst) - listMin (branch.map Prod.fst) := by
  have hperm : ∀ nm, List.Perm (pb_sorted branch nm) branch := by
    intro nm
    rw [pb_sorted]
    split
    · exact List.perm_insertionSort _ branch
    · exact List.perm_insertionSort _ branch
  have hxne : (pb_sorted branch name).map Prod.fst ≠ [] := by
    intro hc
    apply hb
    have := congrArg List.length hc
    simp only [List.length_map, List.length_nil] at this
    exact List.length_eq_zero.mp ((hperm name).length_eq.symm ▸ this)
  have hbne : branch.map Prod.fst ≠ [] := by
    intro hc
    apply hb
    have := congrArg List.length hc
    simp only [List.length_map, List.length_nil] at this
    exact List.length_eq_zero.mp this
  have hmem : ∀ z : ℚ, z ∈ (pb_sorted branch name).map Prod.fst ↔
      z ∈ branch.map Prod.fst := by
    intro z
    constructor
    · intro hz
      obtain ⟨r, hr, hrz⟩ := List.mem_map.mp hz
      exact List.mem_map.mpr ⟨r, (hperm name).mem_iff.mp hr, hrz⟩
    · intro hz
      obtain ⟨r, hr, hrz⟩ := List.mem_map.mp hz
      exact List.mem_map.mpr ⟨r, (hperm name).mem_iff.mpr hr, hrz⟩
  have hspan : |((pb_sorted branch name).map Prod.fst).getLast?.getD 0 -
      ((pb_sorted branch name).map Prod.fst).headD 0| =
      listMax ((pb_sorted branch name).map Prod.fst) -
        listMin ((pb_sorted branch name).map Prod.fst) := by
    by_cases hn : name = "pos"
    · refine sorted_span_desc _ hxne ?_
      have hsp : (pb_sorted branch name).Pairwise
          (fun a b : ℚ × ℚ => b.1 ≤ a.1) := by
        rw [pb_sorted, if_pos hn]
        exact List.sorted_insertionSort _ branch
      exact (List.pairwise_map).mpr hsp
    · refine sorted_span_asc _ hxne ?_
      have hsp : (pb_sorted branch name).Pairwise
          (fun a b : ℚ × ℚ => a.1 ≤ b.1) := by
        rw [pb_sorted, if_neg hn]
        exact List.sorted_insertionSort _ branch
      exact (List.pairwise_map).mpr hsp
  rw [hspan, listMax_congr_mem _ _ hxne hbne hmem,
    listMin_congr_mem _ _ hxne hbne hmem]

/-- Helper: a note `name ++ a` is not in the singleton `[name ++ b]` when
the reasons differ. -/
theorem note_ne_aux (name a b : String) (hab : a ≠ b) :
    (name ++ a) ∉ [name ++ b] := by
  intro hmem
  simp only [List.mem_singleton] at hmem
  exact hab (string_append_cancel_left _ _ _ hmem)

/-- Helper: `pb_finish` never emits the "unstable slope" note. -/
theorem pb_finish_no_unstable (p : AutoParams) (x y : List ℚ)
    (name : String) (start vc w : ℕ) :
    (name ++ " branch: unstable slope") ∉
      (pb_finish p x y name start vc w).2 := by
  simp only [pb_finish]
  split
  · exact note_ne_aux _ _ _ (by decide)
  · split
    · simp
    · split
      · exact note_ne_aux _ _ _ (by decide)
      · split
        · simp
        · simp

/-- Helper: the trim of a nonempty slope list never reaches zero. -/
theorem trim_len_ne_zero (slopes : List ℚ) (maxRel : ℚ)
    (h : slopes ≠ []) : trim_loop slopes maxRel slopes.length ≠ 0 := by
  have h1 := trim_ge_one slopes maxRel slopes.length (List.length_pos.mpr h)
  omega

/-- C9: for every branch that reaches the stability trim with at least one
accepted window position, the trim loop retains at least one slope, so the
"unstable slope" invalidation path of `_process_branch` is unreachable: no
run ever emits that note, and a branch with any accepted position always
proceeds to the length and span checks of `pb_finish`. -/
theorem C9_no_unstable (p : AutoParams) (branch : List (ℚ × ℚ))
    (name : String) :
    (name ++ " branch: unstable slope") ∉
      (process_branch p branch name).2 := by
  simp only [process_branch]
  split
  · exact note_ne_aux _ _ _ (by decide)
  · split
    · exact note_ne_aux _ _ _ (by decide)
    · split
      · exact note_ne_aux _ _ _ (by decide)
      · split
        · exact note_ne_aux _ _ _ (by decide)
        · split
          · exact note_ne_aux _ _ _ (by decide)
          · split
            · rename_i hne h0
              exact absurd h0 (trim_len_ne_zero _ p.slope_std_rel_max hne)
            · exact pb_finish_no_unstable _ _ _ _ _ _ _

/-- Helper: bounds guaranteed by `pb_finish` for any returned record: at
least `n_min` points, at most `max_frac·n + 1` points, and a field span of
at least `dh_min_frac` of the sorted column's end-to-end span. -/
theorem pb_finish_bounds (p : AutoParams) (x y : List ℚ) (name : String)
    (start vc w : ℕ) (rec : BranchRec) (hp : 1 ≤ p.n_min)
    (hrec : (pb_finish p x y name start vc w).1 = some rec) :
    p.n_min ≤ rec.n ∧ (rec.n : ℚ) ≤ p.max_frac * (x.length : ℚ) + 1 ∧
    p.dh_min_frac * |x.getLast?.getD 0 - x.headD 0| ≤
      rec.hmax - rec.hmin := by
  simp only [pb_finish] at hrec
  split at hrec
  · exact absurd hrec (by simp)
  · rename_i hreg
    split at hrec
    · exact absurd hrec (by simp)
    · rename_i hxs
      split at hrec
      · exact absurd hrec (by simp)
      · rename_i hdh
        split at hrec
        · exact absurd hrec (by simp)
        · rename_i slope intercept hfit
          simp only [Option.some.injEq] at hrec
          subst hrec
          have hE := pb_endIdx_le p x.length start vc w
          have hC := pb_endIdx_cap p x.length start vc w
          have hR : (p.n_min : ℤ) ≤
              pb_endIdx p x.length start vc w - start + 1 := by
            omega
          have hlen : ((x.drop start).take
              (pb_endIdx p x.length start vc w + 1 - start).toNat).length =
              min (pb_endIdx p x.length start vc w + 1 - start).toNat
                (x.length - start) := by
            rw [List.length_take, List.length_drop]
          refine ⟨?_, ?_, ?_⟩
          · show p.n_min ≤ ((x.drop start).take
              (pb_endIdx p x.length start vc w + 1 - start).toNat).length
            rw [hlen]
            refine le_min ?_ ?_
            · omega
            · omega
          · show ((((x.drop start).take
              (pb_endIdx p x.length start vc w + 1 -
                start).toNat).length : ℚ)) ≤
              p.max_frac * (x.length : ℚ) + 1
            by_cases hq : 0 ≤ p.max_frac * (x.length : ℚ)
            · have h1 : ((x.drop start).take
                  (pb_endIdx p x.length start vc w + 1 -
                    start).toNat).length ≤
                  (intTrunc (p.max_frac * (x.length : ℚ))).toNat := by
                rw [hlen]
                omega
              have h2 : (((intTrunc (p.max_frac *
                  (x.length : ℚ))).toNat : ℚ)) ≤
                  p.max_frac * (x.length : ℚ) := by
                have h3 := intTrunc_le_self (p.max_frac * (x.length : ℚ)) hq
                have h4 : (0 : ℤ) ≤ intTrunc (p.max_frac * (x.length : ℚ)) := by
                  omega
                rw [← Int.toNat_of_nonneg h4] at h3
                exact_mod_cast h3
              calc ((((x.drop start).take
                  (pb_endIdx p x.length start vc w + 1 -
                    start).toNat).length : ℚ))
                  ≤ (((intTrunc (p.max_frac *
                    (x.length : ℚ))).toNat : ℚ)) := by
                    exact_mod_cast Nat.cast_le.mpr h1
                _ ≤ p.max_frac * (x.length : ℚ) := h2
                _ ≤ p.max_frac * (x.length : ℚ) + 1 := by linarith
            · exfalso
              have h5 := intTrunc_nonpos (p.max_frac * (x.length : ℚ))
                (not_le.mp hq)
              omega
          · show p.dh_min_frac * |x.getLast?.getD 0 - x.headD 0| ≤
              listMax ((x.drop start).take
                (pb_endIdx p x.length start vc w + 1 - start).toNat) -
              listMin ((x.drop start).take
                (pb_endIdx p x.length start vc w + 1 - start).toNat)
            have h6 := abs_last_sub_head_le _ hxs
            have h7 := not_lt.mp hdh
            linarith

/-- C5: every branch record returned by `_process_branch` (with any
parameters having `n_min ≥ 1`, in particular the defaults) has a point
count `n` with `n_min ≤ n ≤ max_frac · branch_size + 1` and a field span
of at least `dh_min_frac` times the branch's total field span; branches
violating these bounds are rejected before a record is produced. -/
theorem C5_branch_bounds (p : AutoParams) (branch : List (ℚ × ℚ))
    (name : String) (rec : BranchRec) (hp : 1 ≤ p.n_min)
    (hrec : (process_branch p branch name).1 = some rec) :
    p.n_min ≤ rec.n ∧ (rec.n : ℚ) ≤ p.max_frac * (branch.length : ℚ) + 1 ∧
    p.dh_min_frac * (listMax (branch.map Prod.fst) -
      listMin (branch.map Prod.fst)) ≤ rec.hmax - rec.hmin := by
  simp only [process_branch] at hrec
  split at hrec
  · exact absurd hrec (by simp)
  · rename_i hb
    split at hrec
    · exact absurd hrec (by simp)
    · split at hrec
      · exact absurd hrec (by simp)
      · split at hrec
        · exact absurd hrec (by simp)
        · split at hrec
          · exact absurd hrec (by simp)
          · split at hrec
            · exact absurd hrec (by simp)
            · have hlen : ((pb_sorted branch name).map Prod.fst).length =
                  branch.length := by
                rw [pb_sorted]
                split
                · rw [List.length_map, List.length_insertionSort]
                · rw [List.length_map, List.length_insertionSort]
              obtain ⟨b1, b2, b3⟩ := pb_finish_bounds p _ _ name _ _ _ rec
                hp hrec
              rw [hlen] at b2
              rw [pb_sorted_span branch name hb] at b3
              exact ⟨b1, b2, b3⟩

/-- C5, witness: a concrete successful branch run (relaxed parameters,
2-point linear branch) whose record satisfies all three bounds. -/
theorem C5_branch_bounds_w :
    (2 : ℕ) ≤ (⟨1, 2, 1, 2, 0, 1, 2⟩ : BranchRec).n ∧
    (((⟨1, 2, 1, 2, 0, 1, 2⟩ : BranchRec).n : ℚ)) ≤
      1 * (([((1 : ℚ), (2 : ℚ)), (2, 4)] : List (ℚ × ℚ)).length : ℚ) + 1 ∧
    (1 : ℚ)/10 * (listMax ([((1 : ℚ), (2 : ℚ)), (2, 4)].map Prod.fst) -
      listMin ([((1 : ℚ), (2 : ℚ)), (2, 4)].map Prod.fst)) ≤
      (⟨1, 2, 1, 2, 0, 1, 2⟩ : BranchRec).hmax -
        (⟨1, 2, 1, 2, 0, 1, 2⟩ : BranchRec).hmin := by
  have hsort : pb_sorted [((1 : ℚ), (2 : ℚ)), (2, 4)] ("neg") =
      [(1, 2), (2, 4)] := by
    rw [pb_sorted, if_neg (by decide : ¬("neg" = "pos"))]
    norm_num [List.insertionSort, List.orderedInsert]
  have hslide : slide_loop ⟨0, 0, 1/2, 1/10, none, 1, 2, 1/10, none⟩
      [(1 : ℚ), 2] [(2 : ℚ), 4] 2 2 3 0 none [] = (some 0, [2]) := by
    norm_num [slide_loop, slide_eval, fitLine, sumQ, r2_or_zero, ssTot,
      ssRes, meanQ]
  have htrim : trim_loop [(2 : ℚ)] (1/10) 1 = 1 := by norm_num [trim_loop]
  have hfin : pb_finish ⟨0, 0, 1/2, 1/10, none, 1, 2, 1/10, none⟩
      [(1 : ℚ), 2] [(2 : ℚ), 4] ("neg") 0 1 2 =
      (some ⟨1, 2, 1, 2, 0, 1, 2⟩, []) := by
    norm_num [pb_finish, pb_endIdx, intTrunc, fitLine, sumQ, r2_or_zero,
      ssTot, ssRes, meanQ, listMin, listMax, min_def,
      (by decide : ((2 : ℤ)).toNat = 2)]
    intro h
    simp at h
  have hpb : process_branch ⟨0, 0, 1/2, 1/10, none, 1, 2, 1/10, none⟩
      [((1 : ℚ), (2 : ℚ)), (2, 4)] ("neg") =
      (some ⟨1, 2, 1, 2, 0, 1, 2⟩, []) := by
    simp only [process_branch, hsort]
    norm_num [pb_yd, intTrunc, hslide, htrim, hfin]
    simp
  exact C5_branch_bounds ⟨0, 0, 1/2, 1/10, none, 1, 2, 1/10, none⟩
    [((1 : ℚ), (2 : ℚ)), (2, 4)] ("neg") ⟨1, 2, 1, 2, 0, 1, 2⟩ (by decide)
    (by rw [hpb])

end VSM
